import Mathlib

/-!
Verification of the multi-agent document-analysis assistant
(`src/pdf_processor.py`, `src/agent_manager.py`, `src/document_comparator.py`,
`src/config.py`, `src/agents/coordinator_agent.py`,
`src/agents/multi_agent_orchestrator.py`, `src/agents/specialist_agents.py`).

Python strings are modelled as `List Char`; Python `dict`s arising from
`json.loads` are modelled by a `Json` inductive whose objects are
insertion-ordered association lists with CPython's "replace value in place on
duplicate key" semantics.  Remote model calls are abstracted as response
oracles (one response string per call), since every claim is about the
orchestration code around the calls, never about the remote model itself.
Python runtime type errors (`AttributeError`/`TypeError` on dynamically typed
values) are modelled with `Except String`.
-/

namespace MultiAgent

/-- Python strings, modelled as lists of characters. -/
abbrev Str := List Char

/-- Shorthand to turn a Lean string literal into the `Str` model. -/
def S (s : String) : Str := s.data

/-- Python `str.lower()` (the source only lowercases ASCII keywords). -/
def lowerStr (s : Str) : Str := s.map Char.toLower

/-- Python `str.upper()`. -/
def upperStr (s : Str) : Str := s.map Char.toUpper

/-- Whitespace stripped by Python `str.strip()` (ASCII fragment). -/
def isPyWs (c : Char) : Bool :=
  c == ' ' || c == '\t' || c == '\n' || c == '\r' ||
  c == Char.ofNat 11 || c == Char.ofNat 12

/-- Python `str.strip()`. -/
def stripStr (s : Str) : Str :=
  ((s.dropWhile isPyWs).reverse.dropWhile isPyWs).reverse

/-- Python `s[a:b]` for `0 ≤ a ≤ b` (character slicing). -/
def strSlice (s : Str) (a b : Nat) : Str := (s.drop a).take (b - a)

/-- Python `needle in hay` (substring containment). -/
def strContains : Str → Str → Bool
  | hay@(_ :: t), needle => needle.isPrefixOf hay || strContains t needle
  | [], needle => needle.isEmpty

/-- Python `hay.find(needle)`: index of the first occurrence, `none` for `-1`. -/
def strFind : Str → Str → Option Nat
  | hay@(_ :: t), needle =>
      if needle.isPrefixOf hay then some 0 else (strFind t needle).map (· + 1)
  | [], needle => if needle.isEmpty then some 0 else none

/-- Python `hay.find(needle, start)`. -/
def strFindFrom (hay needle : Str) (start : Nat) : Option Nat :=
  (strFind (hay.drop start) needle).map (· + start)

/-- Python `hay.rfind(needle)`: index of the last occurrence. -/
def strRFind (hay needle : Str) : Option Nat :=
  ((List.range (hay.length + 1)).filter (fun i => needle.isPrefixOf (hay.drop i))).getLast?

/-- Python `s.split(sep)` for a one-character separator. -/
def splitOnChar (sep : Char) : Str → List Str
  | [] => [[]]
  | h :: t =>
      let r := splitOnChar sep t
      if h == sep then [] :: r
      else
        match r with
        | [] => [[h]]
        | x :: xs => (h :: x) :: xs

/-- Python `line.split(":", 1)[1]` (everything after the first colon). -/
def afterColon (l : Str) : Str := (l.dropWhile (· ≠ ':')).drop 1

/-- Python `" ".join(parts)`. -/
def joinSpace : List Str → Str
  | [] => []
  | [x] => x
  | x :: xs => x ++ ' ' :: joinSpace xs

/-- Decimal rendering of a natural number (Python `f"{i}"`). -/
def natToStr (n : Nat) : Str := (toString n).data

/-! ## JSON values (results of Python `json.loads`) -/

/-- Parsed JSON value.  Numbers keep their raw lexeme (no claim inspects
numeric values beyond truthiness).  Objects are insertion-ordered association
lists whose keys are already unique (`objInsert` collapses duplicates the way
a CPython `dict` does). -/
inductive Json where
  | null
  | bool (b : Bool)
  | num (raw : Str)
  | str (s : Str)
  | arr (items : List Json)
  | obj (fields : List (Str × Json))

/-- CPython `dict` assignment `d[k] = v`: replace the value in place when the
key exists, append otherwise. -/
def objInsert (fields : List (Str × Json)) (k : Str) (v : Json) :
    List (Str × Json) :=
  match fields with
  | [] => [(k, v)]
  | (k', v') :: rest =>
      if k' == k then (k', v) :: rest else (k', v') :: objInsert rest k v

/-- First (hence, with `objInsert`-built objects, only) binding of a key. -/
def assocLookup (fields : List (Str × Json)) (k : Str) : Option Json :=
  match fields with
  | [] => none
  | (k', v') :: rest => if k' == k then some v' else assocLookup rest k

/-- Python `d.get(k, default)` on an object (callers guard for objects). -/
def Json.getD (j : Json) (k : Str) (d : Json) : Json :=
  match j with
  | .obj fields => (assocLookup fields k).getD d
  | _ => d

/-- Is this value a Python `dict`? -/
def Json.isObj : Json → Bool
  | .obj _ => true
  | _ => false

/-- A JSON number lexeme denotes zero iff its mantissa digits are all `0`. -/
def numIsZero (raw : Str) : Bool :=
  (raw.takeWhile (fun c => c ≠ 'e' && c ≠ 'E')).all
    (fun c => c == '0' || c == '-' || c == '.')

/-- Python truthiness of a parsed JSON value. -/
def Json.truthy : Json → Bool
  | .null => false
  | .bool b => b
  | .num raw => !numIsZero raw
  | .str s => !s.isEmpty
  | .arr l => !l.isEmpty
  | .obj f => !f.isEmpty

/-! ## A model of `json.loads` (recursive-descent, fuelled) -/

/-- Whitespace skipped by the JSON grammar. -/
def isJsonWs (c : Char) : Bool := c == ' ' || c == '\t' || c == '\n' || c == '\r'

def hexVal (c : Char) : Option Nat :=
  if '0' ≤ c ∧ c ≤ '9' then some (c.toNat - '0'.toNat)
  else if 'a' ≤ c ∧ c ≤ 'f' then some (c.toNat - 'a'.toNat + 10)
  else if 'A' ≤ c ∧ c ≤ 'F' then some (c.toNat - 'A'.toNat + 10)
  else none

/-- Parse the body of a JSON string literal (after the opening quote);
returns the decoded text and the remainder after the closing quote. -/
def parseStringLit : Str → Option (Str × Str)
  | [] => none
  | c :: rest =>
      if c == '"' then some ([], rest)
      else if c == '\\' then
        match rest with
        | [] => none
        | e :: rest2 =>
            if e == 'u' then
              match rest2 with
              | h1 :: h2 :: h3 :: h4 :: rest3 =>
                  match hexVal h1, hexVal h2, hexVal h3, hexVal h4 with
                  | some a, some b, some c', some d =>
                      (parseStringLit rest3).map
                        (fun p => (Char.ofNat (((a * 16 + b) * 16 + c') * 16 + d) :: p.1, p.2))
                  | _, _, _, _ => none
              | _ => none
            else
              let dec : Option Char :=
                if e == '"' then some '"'
                else if e == '\\' then some '\\'
                else if e == '/' then some '/'
                else if e == 'b' then some (Char.ofNat 8)
                else if e == 'f' then some (Char.ofNat 12)
                else if e == 'n' then some '\n'
                else if e == 'r' then some '\r'
                else if e == 't' then some '\t'
                else none
              match dec with
              | some d => (parseStringLit rest2).map (fun p => (d :: p.1, p.2))
              | none => none
      else if c.toNat < 32 then none
      else (parseStringLit rest).map (fun p => (c :: p.1, p.2))

/-- Parse a JSON number lexeme (`-? int frac? exp?`), returning it raw. -/
def parseNumber (s : Str) : Option (Str × Str) :=
  let (sign, s1) := match s with | '-' :: t => ((['-'] : Str), t) | _ => (([] : Str), s)
  match s1 with
  | [] => none
  | c :: t =>
      if ¬ c.isDigit then none
      else
        let (intPart, r1) :=
          if c == '0' then (([c] : Str), t)
          else (c :: t.takeWhile Char.isDigit, t.dropWhile Char.isDigit)
        let (fracPart, r2) :=
          match r1 with
          | '.' :: t2 =>
              let ds := t2.takeWhile Char.isDigit
              if ds.isEmpty then (none, r1)
              else (some ('.' :: ds), t2.dropWhile Char.isDigit)
          | _ => (none, r1)
        match fracPart with
        | none =>
            if (match r1 with | '.' :: _ => true | _ => false) then none
            else expParse (sign ++ intPart) r1
        | some fp => expParse (sign ++ intPart ++ fp) r2
where
  expParse (lexeme : Str) (r : Str) : Option (Str × Str) :=
    match r with
    | e :: t =>
        if e == 'e' || e == 'E' then
          let (esign, t1) :=
            match t with
            | '+' :: t' => ((['+'] : Str), t')
            | '-' :: t' => ((['-'] : Str), t')
            | _ => (([] : Str), t)
          let ds := t1.takeWhile Char.isDigit
          if ds.isEmpty then none
          else some (lexeme ++ e :: esign ++ ds, t1.dropWhile Char.isDigit)
        else some (lexeme, r)
    | [] => some (lexeme, r)

def expectPrefix (p s : Str) : Option Str :=
  if p.isPrefixOf s then some (s.drop p.length) else none

mutual

/-- Parse one JSON value (fuelled recursive descent). -/
def parseValue : Nat → Str → Option (Json × Str)
  | 0, _ => none
  | Nat.succ fuel, s =>
      match s with
      | [] => none
      | c :: rest =>
          if c == Char.ofNat 123 then
            let s1 := rest.dropWhile isJsonWs
            match s1 with
            | c2 :: rest2 =>
                if c2 == Char.ofNat 125 then some (Json.obj [], rest2)
                else parseMembers fuel s1 []
            | [] => none
          else if c == '[' then
            let s1 := rest.dropWhile isJsonWs
            match s1 with
            | c2 :: rest2 =>
                if c2 == ']' then some (Json.arr [], rest2)
                else parseItems fuel s1 []
            | [] => none
          else if c == '"' then
            (parseStringLit rest).map (fun p => (Json.str p.1, p.2))
          else if c == 't' then
            (expectPrefix (S "rue") rest).map (fun r => (Json.bool true, r))
          else if c == 'f' then
            (expectPrefix (S "alse") rest).map (fun r => (Json.bool false, r))
          else if c == 'n' then
            (expectPrefix (S "ull") rest).map (fun r => (Json.null, r))
          else if c == '-' || c.isDigit then
            (parseNumber s).map (fun p => (Json.num p.1, p.2))
          else none

/-- Parse `"key": value (,"key": value)* }` inside an object. -/
def parseMembers : Nat → Str → List (Str × Json) → Option (Json × Str)
  | 0, _, _ => none
  | Nat.succ fuel, s, acc =>
      match s with
      | '"' :: rest =>
          match parseStringLit rest with
          | none => none
          | some (key, r1) =>
              match r1.dropWhile isJsonWs with
              | ':' :: r2 =>
                  match parseValue fuel (r2.dropWhile isJsonWs) with
                  | none => none
                  | some (v, r3) =>
                      let acc' := objInsert acc key v
                      match r3.dropWhile isJsonWs with
                      | ',' :: r4 =>
                          parseMembers fuel (r4.dropWhile isJsonWs) acc'
                      | c :: r4 =>
                          if c == Char.ofNat 125 then some (Json.obj acc', r4)
                          else none
                      | [] => none
              | _ => none
      | _ => none

/-- Parse `value (, value)* ]` inside an array. -/
def parseItems : Nat → Str → List Json → Option (Json × Str)
  | 0, _, _ => none
  | Nat.succ fuel, s, acc =>
      match parseValue fuel s with
      | none => none
      | some (v, r1) =>
          let acc' := acc ++ [v]
          match r1.dropWhile isJsonWs with
          | ',' :: r2 => parseItems fuel (r2.dropWhile isJsonWs) acc'
          | ']' :: r2 => some (Json.arr acc', r2)
          | _ => none

end

/-- Model of Python `json.loads` (raises ⇒ `none`).  Non-standard extensions
(`NaN`, `Infinity`) that CPython accepts are not modelled; no claim input
uses them. -/
def loads (s : Str) : Option Json :=
  match parseValue (2 * s.length + 4) (s.dropWhile isJsonWs) with
  | some (j, rest) => if (rest.dropWhile isJsonWs).isEmpty then some j else none
  | none => none

/-! ## `AgentManager.parse_json_response` (src/agent_manager.py lines 127-148;
identical logic in `gradio_app_2._parse_json_response`) -/

/-- The one-character needle `"{"` of `response.find(chr(123))`. -/
def lbrace : Str := [Char.ofNat 123]

/-- The one-character needle `"}"` of `response.rfind(chr(125))`. -/
def rbrace : Str := [Char.ofNat 125]

/-- The "plain JSON" fallback: substring from the first brace to the last
brace, parsed; any failure yields the empty mapping. -/
def bareParse (response : Str) : Json :=
  match strFind response lbrace, strRFind response rbrace with
  | some s, some e =>
      match loads (strSlice response s (e + 1)) with
      | some j => j
      | none => Json.obj []
  | _, _ => Json.obj []

/-- `parse_json_response`: a closed ```` ```json ```` fence is tried first
(its parse failure is swallowed by the `except` and yields the empty
mapping without falling through); otherwise the bare brace-to-brace
substring is tried. -/
def parse_json_response (response : Str) : Json :=
  match strFind response (S "```json") with
  | some i =>
      let start := i + 7
      match strFindFrom response (S "```") start with
      | some e =>
          match loads (stripStr (strSlice response start e)) with
          | some j => j
          | none => Json.obj []
      | none => bareParse response
  | none => bareParse response

/-! ## Configuration (src/config.py) -/

def MAX_CONTENT_LENGTH : Nat := 80000
def MAX_QUESTIONS : Nat := 20
def MAX_EXTRACTIONS : Nat := 5

/-- `DocumentType.FALLBACK_QUESTIONS['lease']`. -/
def leaseBank : List Str :=
  [S "What is the rental amount or monthly rent?",
   S "What are the lease terms and duration?",
   S "What are the pet policies and associated fees?",
   S "What security deposit is required?",
   S "What are the tenant responsibilities?",
   S "What are the landlord responsibilities?",
   S "What are the termination conditions?",
   S "What penalties or fees are mentioned?"]

/-- `DocumentType.FALLBACK_QUESTIONS['contract']`. -/
def contractBank : List Str :=
  [S "What are the main terms and conditions?",
   S "Who are the parties involved?",
   S "What are the obligations of each party?",
   S "What are the payment terms?",
   S "What are the termination clauses?",
   S "What penalties or consequences are specified?",
   S "What are the key dates and deadlines?",
   S "What dispute resolution mechanisms exist?"]

/-- `DocumentType.FALLBACK_QUESTIONS['policy']`. -/
def policyBank : List Str :=
  [S "What is the main purpose or scope?",
   S "What are the key policies or rules?",
   S "Who does this apply to?",
   S "What are the requirements or qualifications?",
   S "What are the procedures to follow?",
   S "What are the exceptions or special cases?",
   S "What are the consequences of non-compliance?",
   S "How often is this reviewed or updated?"]

/-- `DocumentType.FALLBACK_QUESTIONS['generic']`. -/
def genericBank : List Str :=
  [S "What is the main subject or purpose?",
   S "What are the key terms and conditions?",
   S "What costs, fees, or financial aspects are mentioned?",
   S "What requirements or qualifications exist?",
   S "What are the important dates and deadlines?",
   S "What parties or entities are involved?",
   S "What processes or procedures are described?",
   S "What risks, penalties, or consequences are mentioned?"]

def leaseKeywords : List Str := [S "lease", S "rent", S "tenant", S "landlord"]
def contractKeywords : List Str := [S "contract", S "agreement", S "terms", S "conditions"]
def policyKeywords : List Str := [S "policy", S "procedure", S "guidelines", S "rules"]

/-! ## `AgentManager.get_fallback_questions` (src/agent_manager.py 150-162) -/

/-- A document is a `(filename, text)` pair, as in `pdf_contents`. -/
abbrev Document := Str × Str

/-- `all_text = prompt.lower() + " " + " ".join(content.lower() for _,
content in pdf_contents)` (line 153). -/
def allText (prompt : Str) (pdf_contents : List Document) : Str :=
  lowerStr prompt ++ ' ' :: joinSpace (pdf_contents.map (fun d => lowerStr d.2))

/-- `get_fallback_questions`: scan `all_text` for the four keyword sets,
first match wins. -/
def get_fallback_questions (prompt : Str) (pdf_contents : List Document) : List Str :=
  if leaseKeywords.any (fun w => strContains (allText prompt pdf_contents) w) then leaseBank
  else if contractKeywords.any (fun w => strContains (allText prompt pdf_contents) w) then contractBank
  else if policyKeywords.any (fun w => strContains (allText prompt pdf_contents) w) then policyBank
  else genericBank

/-! ## `PDFProcessor` (src/pdf_processor.py)

Remote agent calls are abstracted as response oracles: `qResp` is the raw
text the question-generator agent returned, and `respond i` is the raw text
the information-extractor agent returned for the `i`-th document (0-based).
Prompt construction feeds only the remote call and is therefore not part of
the oracle's index. -/

/-- Python slicing `questions[:20]` on the dynamically typed value read from
the parsed JSON: lists and strings slice, anything else raises `TypeError`. -/
def pySlice (n : Nat) : Json → Except Str Json
  | .arr l => .ok (.arr (l.take n))
  | .str s => .ok (.str (s.take n))
  | _ => .error (S "TypeError")

/-- `PDFProcessor._generate_questions` (lines 33-49).  Returns the
dynamically typed `questions[:MAX_QUESTIONS]` value; `.get` on a non-dict
parse result and slicing a non-sliceable value raise. -/
def generate_questions (qResp : Str) (prompt : Str) (pdf_contents : List Document) :
    Except Str Json :=
  let questions_data := parse_json_response qResp
  match questions_data with
  | .obj fields =>
      let questions := (Json.obj fields).getD (S "questions") (Json.arr [])
      let questions :=
        if questions.truthy then questions
        else Json.arr ((get_fallback_questions prompt pdf_contents).map Json.str)
      pySlice MAX_QUESTIONS questions
  | _ => .error (S "AttributeError")

/-- Truncation of document text before extraction (lines 57-59; the marker in
this file is spelled with literal backslash-n characters in the source). -/
def truncateContent (content : Str) : Str :=
  let truncated := content.take MAX_CONTENT_LENGTH
  if content.length > MAX_CONTENT_LENGTH then
    truncated ++ S "\\n\\n[Content truncated due to length...]"
  else truncated

/-- The adapter's rate-limit sentinel (src/agent_manager.py line 122). -/
def rateLimitSentinel : Str := S "Rate limit exceeded"

/-- The user-facing rate-limit message of `process_comparison` (line 28). -/
def rateLimitMessage : Str :=
  S "Could not extract information from the documents due to rate limits. Please try again later."

/-- The fallback extraction record for one document (lines 82-89). -/
def fallbackRecord (filename truncated : Str) : Json :=
  Json.obj [(S "document_name", Json.str filename),
            (S "extractions", Json.arr
              [Json.obj [(S "question", Json.str (S "Document summary")),
                         (S "answer", Json.str (truncated.take 500 ++ S "...")),
                         (S "source_text", Json.str (S "Full document"))]])]

/-- Outcome of `_extract_information`'s loop, tracking how many extraction
calls were made. -/
inductive ExtractOutcome where
  | ok (records : List Json) (calls : Nat)
  | rateLimited (calls : Nat)
  | err (msg : Str) (calls : Nat)

def ExtractOutcome.calls : ExtractOutcome → Nat
  | .ok _ n => n
  | .rateLimited n => n
  | .err _ n => n

/-- The record `_extract_information` builds for one document from the parsed
extraction response (lines 75-90): the parsed dict with `document_name` set
when it is truthy and has a truthy `extractions` entry, the synthesized
fallback record otherwise; `.get('extractions')` on a truthy non-dict parse
raises. -/
def recordFor (filename content resp : Str) : Except Str Json :=
  let truncated := truncateContent content
  let data := parse_json_response resp
  if data.truthy then
    match data with
    | .obj fields =>
        if (Json.getD (.obj fields) (S "extractions") .null).truthy then
          .ok (Json.obj (objInsert fields (S "document_name") (Json.str filename)))
        else .ok (fallbackRecord filename truncated)
    | _ => .error (S "AttributeError")
  else .ok (fallbackRecord filename truncated)

/-- The loop body of `PDFProcessor._extract_information` (lines 51-92),
processing document `i` onward.  `return []` on the rate-limit sentinel
abandons all earlier records. -/
def extractAux (respond : Nat → Str) (i : Nat) : List Document → ExtractOutcome
  | [] => .ok [] 0
  | (filename, content) :: rest =>
      if strContains (respond i) rateLimitSentinel then .rateLimited 1
      else
        match recordFor filename content (respond i) with
        | .error m => .err m 1
        | .ok r =>
            match extractAux respond (i + 1) rest with
            | .ok recs n => .ok (r :: recs) (n + 1)
            | .rateLimited n => .rateLimited (n + 1)
            | .err m n => .err m (n + 1)

/-- `PDFProcessor._extract_information`: the list the method returns. -/
def extract_information (respond : Nat → Str) (pdf_contents : List Document) :
    Except Str (List Json) :=
  match extractAux respond 0 pdf_contents with
  | .ok recs _ => .ok recs
  | .rateLimited _ => .ok []
  | .err m _ => .error m

/-- Number of information-extractor agent calls `_extract_information` makes. -/
def extractionCalls (respond : Nat → Str) (pdf_contents : List Document) : Nat :=
  (extractAux respond 0 pdf_contents).calls

/-! ## `DocumentComparator.find_key_differences` (src/document_comparator.py 44-71)

The records reaching the comparator are dicts; `find_key_differences` reads
`extraction.get('document_name', 'Unknown')`, `extraction.get('extractions',
[])`, `ext.get('question', '')`, `ext.get('answer', '')`.  We model the
records it consumes as typed values carrying exactly those (defaulted)
string fields; `toComparatorRecord` performs the defaulting from raw JSON. -/

structure ExtItem where
  question : Str
  answer : Str
deriving DecidableEq, Repr

structure ExtRecord where
  document_name : Str
  extractions : List ExtItem
deriving DecidableEq, Repr

/-- CPython `dict` assignment, generic in the value type. -/
def updAssoc {β : Type} (m : List (Str × β)) (k : Str) (v : β) : List (Str × β) :=
  match m with
  | [] => [(k, v)]
  | (k', v') :: rest =>
      if k' == k then (k', v) :: rest else (k', v') :: updAssoc rest k v

/-- Dictionary lookup with default, generic in the value type. -/
def lookupD {β : Type} (m : List (Str × β)) (k : Str) (d : β) : β :=
  match m with
  | [] => d
  | (k', v') :: rest => if k' == k then v' else lookupD rest k d

/-- The nested `for extraction in extractions: for ext in ...` loops that
build the `questions` dict: `questions[question][doc_name] = answer` with
`questions[question] = {}` inserted first when the question is new. -/
def buildQuestions (records : List ExtRecord) : List (Str × List (Str × Str)) :=
  records.foldl
    (fun m r =>
      r.extractions.foldl
        (fun m' it =>
          updAssoc m' it.question (updAssoc (lookupD m' it.question []) r.document_name it.answer))
        m)
    []

/-- Keep the first occurrence of each element not already in `seen`. -/
def dedupFirstAux {α : Type} [DecidableEq α] (seen : List α) : List α → List α
  | [] => []
  | a :: t => if a ∈ seen then dedupFirstAux seen t else a :: dedupFirstAux (a :: seen) t

/-- Keep the first occurrence of each element (Python `set` size is the
length of this list; CPython dict key order is this order). -/
def dedupFirst {α : Type} [DecidableEq α] (l : List α) : List α :=
  dedupFirstAux [] l

/-- `len(set(values))`. -/
def distinctCount (l : List Str) : Nat := (dedupFirst l).length

/-- One `"{doc}: {answer[:100]}{'...' if len(answer) > 100 else ''}; "`
segment of a difference line. -/
def renderDiffSeg (p : Str × Str) : Str :=
  p.1 ++ S ": " ++ p.2.take 100 ++ (if p.2.length > 100 then S "..." else []) ++ S "; "

/-- Python `diff_desc.rstrip('; ')`. -/
def rstripSemiSpace (s : Str) : Str :=
  (s.reverse.dropWhile (fun c => c == ';' || c == ' ')).reverse

/-- One emitted difference line for a question and its per-document answers. -/
def renderDiff (q : Str) (answers : List (Str × Str)) : Str :=
  rstripSemiSpace (S "**" ++ q ++ S "**: " ++ (answers.map renderDiffSeg).flatten)

/-- `DocumentComparator.find_key_differences`: a pure function of the
records — it makes no agent call. -/
def find_key_differences (records : List ExtRecord) : List Str :=
  if records.length < 2 then []
  else
    (buildQuestions records).filterMap
      (fun p => if distinctCount (p.2.map Prod.snd) > 1 then some (renderDiff p.1 p.2) else none)

/-- Read one raw extraction item the way `find_key_differences` does
(`.get('question', '')`, `.get('answer', '')`); non-string values would be
used as dict keys / sliced and are modelled as type errors (no claim input
produces them). -/
def toComparatorItem (j : Json) : Except Str ExtItem := do
  match j with
  | .obj _ =>
      match j.getD (S "question") (Json.str []), j.getD (S "answer") (Json.str []) with
      | .str q, .str a => .ok ⟨q, a⟩
      | _, _ => .error (S "TypeError")
  | _ => .error (S "AttributeError")

/-- Read one raw record the way `find_key_differences` does
(`.get('document_name', 'Unknown')`, `.get('extractions', [])`). -/
def toComparatorRecord (j : Json) : Except Str ExtRecord := do
  match j with
  | .obj _ =>
      match j.getD (S "document_name") (Json.str (S "Unknown")) with
      | .str name =>
          match j.getD (S "extractions") (Json.arr []) with
          | .arr items => do
              let its ← items.mapM toComparatorItem
              .ok ⟨name, its⟩
          | _ => .error (S "TypeError")
      | _ => .error (S "TypeError")
  | _ => .error (S "AttributeError")

/-! ## `PDFProcessor._create_comparison_result` and `process_comparison` -/

/-- Render one document section (lines 105-112; the `+=` f-strings in this
file spell the newline as literal backslash-n).  `str()`-rendering of
non-string JSON field values is modelled as a type error; no claim
evaluates this branch. -/
def renderDocSection (i : Nat) (record : Json) : Except Str Str := do
  let name ← match record with
    | .obj fields =>
        match assocLookup fields (S "document_name") with
        | some (.str s) => .ok s
        | some _ => .error (S "TypeError")
        | none => .error (S "KeyError")
    | _ => .error (S "TypeError")
  let items ← match record.getD (S "extractions") (Json.arr []) with
    | .arr l => .ok l
    | _ => .error (S "TypeError")
  let lines ← (items.take MAX_EXTRACTIONS).mapM (fun it =>
    match it with
    | .obj _ =>
        match it.getD (S "question") (Json.str (S "N/A")),
              it.getD (S "answer") (Json.str (S "N/A")) with
        | .str q, .str a => .ok (S "- **" ++ q ++ S "**: " ++ a ++ S "\\n")
        | _, _ => .error (S "TypeError")
    | _ => .error (S "AttributeError"))
  .ok (S "### Document " ++ natToStr i ++ S ": " ++ name ++ S "\\n" ++ lines.flatten ++ S "\\n")

/-- `PDFProcessor._create_comparison_result` (lines 94-121). -/
def create_comparison_result (prompt : Str) (extractions : List Json) :
    Except Str Str := do
  let header :=
    S "## Document Comparison\n\nBased on your request: \"" ++ prompt ++
    S "\"\n\nI've analyzed " ++ natToStr extractions.length ++ S " documents:\n\n"
  let sections ← (extractions.enum.map (fun p => (p.1 + 1, p.2))).mapM (fun p => renderDocSection p.1 p.2)
  let records ← extractions.mapM toComparatorRecord
  let differences := find_key_differences records
  let diffPart :=
    if differences.isEmpty then []
    else S "### Key Differences\\n\\n" ++
      ((differences.take 10).map (fun d => S "- " ++ d ++ S "\\n")).flatten
  .ok (header ++ sections.flatten ++ diffPart)

/-- `PDFProcessor.process_comparison` (lines 14-31). -/
def process_comparison (qResp : Str) (respond : Nat → Str) (prompt : Str)
    (pdf_contents : List Document) : Except Str Str :=
  if pdf_contents.length < 2 then
    .ok (S "I need at least 2 PDF files to perform a comparison.")
  else
    match generate_questions qResp prompt pdf_contents with
    | .error e => .error e
    | .ok _ =>
        match extract_information respond pdf_contents with
        | .error e => .error e
        | .ok all_extractions =>
            if all_extractions.isEmpty then .ok rateLimitMessage
            else create_comparison_result prompt all_extractions

/-! ## `CoordinatorAgent` (src/agents/coordinator_agent.py)

`route_query` tries rule-based `_quick_route_analysis` first; otherwise, if
the agent object exists it parses `_get_ai_routing_decision`'s response —
which in this code is the fixed string below — and on any exception it
falls back to `_fallback_routing`.  The two booleans `agentInitialized` and
`modelRaises` abstract those two environmental conditions. -/

inductive AgentType where
  | general_knowledge
  | document_comparison
  | question_generator
  | information_extractor
  | comparison_analyst
deriving DecidableEq, Repr

def AgentType.value : AgentType → Str
  | .general_knowledge => S "general_knowledge"
  | .document_comparison => S "document_comparison"
  | .question_generator => S "question_generator"
  | .information_extractor => S "information_extractor"
  | .comparison_analyst => S "comparison_analyst"

/-- `AgentType(s)` guarded by `s in [e.value for e in AgentType]`. -/
def agentTypeOfValue (s : Str) : Option AgentType :=
  if s == S "general_knowledge" then some .general_knowledge
  else if s == S "document_comparison" then some .document_comparison
  else if s == S "question_generator" then some .question_generator
  else if s == S "information_extractor" then some .information_extractor
  else if s == S "comparison_analyst" then some .comparison_analyst
  else none

structure RoutingDecision where
  agent_type : AgentType
  reasoning : Str
  pipeline : List AgentType
  confidence : Str
deriving DecidableEq, Repr

/-- The context flags `_quick_route_analysis` and `_fallback_routing` read
(`context.get("documents_uploaded")`, `context.get("has_documents")`);
`none` models `context = None`.  A dict lacking both keys behaves like both
flags `false`, which this structure also represents. -/
structure RouteContext where
  documents_uploaded : Bool := false
  has_documents : Bool := false
deriving DecidableEq, Repr

/-- `context and (context.get("documents_uploaded") or
context.get("has_documents"))` as a boolean. -/
def docFlag : Option RouteContext → Bool
  | none => false
  | some c => c.documents_uploaded || c.has_documents

/-- `\s` of Python's `re` (ASCII fragment). -/
def isReSpace (c : Char) : Bool :=
  c == ' ' || c == '\t' || c == '\n' || c == '\r' ||
  c == Char.ofNat 11 || c == Char.ofNat 12

def isOpChar (c : Char) : Bool :=
  c == '+' || c == '-' || c == '*' || c == '/' || c == '^'

/-- Does `\d+\s*[\+\-\*\/\^]\s*\d+` match at the head of `s`?  (The char
classes are disjoint, so greedy matching needs no backtracking.) -/
def matchArithAt (s : Str) : Bool :=
  match s with
  | [] => false
  | c :: rest =>
      if c.isDigit then
        match (rest.dropWhile Char.isDigit).dropWhile isReSpace with
        | op :: r3 =>
            if isOpChar op then
              match r3.dropWhile isReSpace with
              | d :: _ => d.isDigit
              | [] => false
            else false
        | [] => false
      else false

/-- Does `solve.*equation` match at the head of `s`?  (`.` does not cross a
newline.) -/
def matchSolveEqAt (s : Str) : Bool :=
  (S "solve").isPrefixOf s &&
    strContains ((s.drop 5).takeWhile (· ≠ '\n')) (S "equation")

/-- Does `x\s*=` match at the head of `s`? -/
def matchXEqAt (s : Str) : Bool :=
  match s with
  | 'x' :: r =>
      match r.dropWhile isReSpace with
      | '=' :: _ => true
      | _ => false
  | _ => false

/-- `re.search`: does the pattern match at some position? -/
def reSearch (p : Str → Bool) : Str → Bool
  | [] => p []
  | s@(_ :: t) => p s || reSearch p t

/-- `any(re.search(pattern, query_lower) for pattern in math_patterns)`. -/
def mathDetected (ql : Str) : Bool :=
  reSearch matchArithAt ql || reSearch matchSolveEqAt ql ||
  strContains ql (S "calculate") || reSearch matchXEqAt ql ||
  strContains ql (S "derivative") || strContains ql (S "integral")

def comparisonKeywords : List Str :=
  [S "compare", S "difference", S "contrast", S "versus", S "vs", S "between"]

def extractKeywords : List Str :=
  [S "extract", S "find", S "get information", S "what is", S "tell me about"]

/-- `CoordinatorAgent._quick_route_analysis` (lines 132-175). -/
def quick_route_analysis (query : Str) (context : Option RouteContext) :
    Option RoutingDecision :=
  let query_lower := lowerStr query
  if mathDetected query_lower then
    some ⟨.general_knowledge, S "Mathematical calculation or equation detected",
          [], S "high"⟩
  else if comparisonKeywords.any (fun w => strContains query_lower w) && docFlag context then
    some ⟨.document_comparison, S "Document comparison request detected",
          [.information_extractor, .document_comparison, .comparison_analyst], S "high"⟩
  else if strContains query_lower (S "generate question") ||
          strContains query_lower (S "create question") then
    some ⟨.question_generator, S "Question generation request detected",
          [.information_extractor, .question_generator], S "high"⟩
  else if extractKeywords.any (fun w => strContains query_lower w) && docFlag context then
    some ⟨.information_extractor, S "Information extraction from documents detected",
          [.information_extractor], S "high"⟩
  else none

def defaultRouting : RoutingDecision :=
  ⟨.general_knowledge, S "Default routing", [], S "medium"⟩

/-- One line of `_parse_routing_response`'s loop (lines 200-213). -/
def parseRoutingStep (r : RoutingDecision) (line : Str) : RoutingDecision :=
  if (S "ROUTE_TO:").isPrefixOf line then
    match agentTypeOfValue (lowerStr (stripStr (afterColon line))) with
    | some a => { r with agent_type := a }
    | none => r
  else if (S "REASONING:").isPrefixOf line then
    { r with reasoning := stripStr (afterColon line) }
  else if (S "PIPELINE:").isPrefixOf line then
    let ps := stripStr (afterColon line)
    if ¬ ps.isEmpty ∧ ps ≠ S "[]" then { r with pipeline := [] } else r
  else r

/-- `CoordinatorAgent._parse_routing_response` (lines 190-214). -/
def parse_routing_response (response : Str) : RoutingDecision :=
  (splitOnChar '\n' (stripStr response)).foldl parseRoutingStep defaultRouting

/-- The string `_get_ai_routing_decision` returns (line 188). -/
def aiFixedRoutingResponse : Str :=
  S "ROUTE_TO: GENERAL_KNOWLEDGE\nREASONING: Fallback routing\nPIPELINE: []"

/-- `CoordinatorAgent._fallback_routing` (lines 216-242). -/
def fallback_routing (query : Str) (context : Option RouteContext) : RoutingDecision :=
  let query_lower := lowerStr query
  if (match context with | some c => c.documents_uploaded | none => false) then
    if [S "compare", S "contrast", S "difference"].any
        (fun w => strContains query_lower w) then
      ⟨.document_comparison, S "Fallback: Document comparison keywords detected",
        [.information_extractor, .document_comparison], S "medium"⟩
    else
      ⟨.information_extractor, S "Fallback: Documents available, defaulting to extraction",
        [.information_extractor], S "medium"⟩
  else
    ⟨.general_knowledge, S "Fallback: No documents, defaulting to general knowledge",
      [], S "low"⟩

/-- `CoordinatorAgent.route_query` (lines 78-109). -/
def route_query (query : Str) (context : Option RouteContext)
    (agentInitialized modelRaises : Bool) : RoutingDecision :=
  match quick_route_analysis query context with
  | some d => d
  | none =>
      if agentInitialized then
        if modelRaises then fallback_routing query context
        else parse_routing_response aiFixedRoutingResponse
      else fallback_routing query context

/-! ## `AgentRegistry` (src/agents/specialist_agents.py)

Each specialist's `process` formats a fixed success payload (its `try` body
cannot raise), carrying the agent's own `agent_type` tag — which is
`"knowledge_agent"` or `"document_agent"`, not the registry key.  The
`context` entry of the result dict is never read by any claim and is
omitted. -/

structure StageResult where
  agent_type : Str
  response : Str
  status : Str
deriving DecidableEq, Repr

/-- The registry's key → constructor-time `agent_type` tag (lines 195-203;
`GeneralKnowledgeAgent` is built with `"knowledge_agent"`, the four others
with `"document_agent"`). -/
def registryAgentTag (agent_type : Str) : Option Str :=
  if agent_type == S "general_knowledge" then some (S "knowledge_agent")
  else if agent_type == S "document_comparison" then some (S "document_agent")
  else if agent_type == S "question_generator" then some (S "document_agent")
  else if agent_type == S "information_extractor" then some (S "document_agent")
  else if agent_type == S "comparison_analyst" then some (S "document_agent")
  else none

/-- Registry keys (for stating which pipeline entries resolve). -/
def registryKeys : List Str :=
  [S "general_knowledge", S "document_comparison", S "question_generator",
   S "information_extractor", S "comparison_analyst"]

/-- `AgentRegistry.process_with_agent` (lines 209-219) composed with
`BaseSpecialistAgent.process` (lines 48-65). -/
def process_with_agent (agent_type query : Str) : StageResult :=
  match registryAgentTag agent_type with
  | none =>
      ⟨agent_type, S "Agent type '" ++ agent_type ++ S "' not found", S "error"⟩
  | some tag =>
      ⟨tag, S "Processed by " ++ tag ++ S ": " ++ query, S "success"⟩

structure PipelineResult where
  agent_type : Str
  pipeline : List Str
  response : Str
  individual_results : List StageResult
  status : Str
deriving DecidableEq, Repr

/-- `AgentRegistry._combine_pipeline_results` (lines 247-263). -/
def combine_pipeline_results (results : List StageResult) (query : Str) : Str :=
  match results with
  | [] => S "No results from pipeline"
  | [r] => r.response
  | _ =>
      S "Pipeline Analysis for: '" ++ query ++ S "'\n\n" ++
      ((results.enum.map (fun p => (p.1 + 1, p.2))).map
        (fun p =>
          natToStr p.1 ++ S ". " ++ upperStr p.2.agent_type ++ S ":\n" ++
          p.2.response ++ S "\n\n")).flatten

/-- `AgentRegistry.process_pipeline` (lines 221-245).  The context threaded
between stages (`previous_results`, `last_agent_result`) does not influence
any stage's output in this code and is not modelled. -/
def process_pipeline (pipeline : List Str) (query : Str) : PipelineResult :=
  let results := pipeline.map (fun t => process_with_agent t query)
  ⟨S "pipeline", pipeline, combine_pipeline_results results query, results,
   S "success"⟩

/-! ## `MultiAgentOrchestrator` (src/agents/multi_agent_orchestrator.py)

`process_query`'s `try` block spans routing, processing and
`_update_session_context`; the `except` branch returns an error payload
without touching the session.  `exc` injects an exception raised inside the
`try` block (e.g. by a remote call); `none` means the block runs to
completion.  History timestamps are not modelled. -/

inductive ProcResult where
  | single (r : StageResult)
  | pipe (r : PipelineResult)
deriving DecidableEq, Repr

structure Interaction where
  routing_decision : RoutingDecision
  result : ProcResult
deriving DecidableEq, Repr

structure Session where
  history : List Interaction
  documents_uploaded : Bool
  previous_agent : Option Str
deriving DecidableEq, Repr

/-- The default session created on first contact (lines 137-143). -/
def defaultSession : Session := ⟨[], false, none⟩

abbrev Sessions := List (Str × Session)

def getSession : Sessions → Str → Option Session
  | [], _ => none
  | (k, v) :: rest, sid => if k == sid then some v else getSession rest sid

/-- `_get_session_context`'s get-or-create view of a session. -/
def getOrDefault (st : Sessions) (sid : Str) : Session :=
  (getSession st sid).getD defaultSession

/-- Caller-supplied per-call context (`context` argument); `none` fields are
keys the caller did not pass, so `session_context.update(context)` leaves
the session's value visible. -/
structure CallerCtx where
  documents_uploaded : Option Bool := none
  has_documents : Option Bool := none
deriving DecidableEq, Repr

/-- The routing flags of the merged `session_context.copy(); .update(context)`
dict handed to `route_query`. -/
def mergedRouteContext (session : Session) (ctx : Option CallerCtx) : RouteContext :=
  match ctx with
  | none => ⟨session.documents_uploaded, false⟩
  | some c => ⟨c.documents_uploaded.getD session.documents_uploaded,
               c.has_documents.getD false⟩

/-- The top-level response dict of `process_query`. -/
structure OrchResponse where
  query : Str
  routing_decision : Option RoutingDecision
  result : Option ProcResult
  error : Option Str
  session_id : Str
  status : Str
deriving DecidableEq, Repr

/-- `_update_session_context` (lines 147-171): append one history entry and
set `previous_agent` from the decision's `agent_type.value`. -/
def update_session_context (st : Sessions) (sid : Str) (rd : RoutingDecision)
    (result : ProcResult) : Sessions :=
  let s := getOrDefault st sid
  updAssoc st sid
    { s with history := s.history ++ [⟨rd, result⟩],
             previous_agent := some rd.agent_type.value }

/-- `MultiAgentOrchestrator.process_query` (lines 38-99). -/
def process_query (st : Sessions) (query sid : Str) (ctx : Option CallerCtx)
    (exc : Option Str) (agentInitialized modelRaises : Bool) :
    Sessions × OrchResponse :=
  let session := getOrDefault st sid
  let st1 := updAssoc st sid session
  let merged := mergedRouteContext session ctx
  match exc with
  | some msg =>
      (st1, ⟨query, none, none, some msg, sid, S "error"⟩)
  | none =>
      let rd := route_query query (some merged) agentInitialized modelRaises
      let result : ProcResult :=
        if rd.pipeline.isEmpty then
          .single (process_with_agent rd.agent_type.value query)
        else
          .pipe (process_pipeline (rd.pipeline.map AgentType.value) query)
      let st2 := update_session_context st1 sid rd result
      (st2, ⟨query, some rd, some result, none, sid, S "success"⟩)

/-- Length of a session's history (0 when the session does not exist). -/
def histLen (st : Sessions) (sid : Str) : Nat :=
  (getOrDefault st sid).history.length

/-! # Theorems -/

/-! ## Generic association-list lemmas -/

theorem getSession_updAssoc_self (st : Sessions) (sid : Str) (v : Session) :
    getSession (updAssoc st sid v) sid = some v := by
  induction st with
  | nil => simp [updAssoc, getSession]
  | cons p rest ih =>
      obtain ⟨k, w⟩ := p
      by_cases h : (k == sid) = true
      · simp [updAssoc, h, getSession]
      · simp [updAssoc, h, getSession, ih]

/-! ## C2: the routing invariant -/

/-- `pipeline` is empty iff `agent_type` is `general_knowledge`. -/
@[reducible] def routingInvariant (d : RoutingDecision) : Prop :=
  d.pipeline = [] ↔ d.agent_type = AgentType.general_knowledge

theorem quick_route_invariant (q : Str) (ctx : Option RouteContext)
    (d : RoutingDecision) (h : quick_route_analysis q ctx = some d) :
    routingInvariant d := by
  simp only [quick_route_analysis] at h
  split_ifs at h <;>
    first
      | exact Option.noConfusion h
      | (injection h with h'; subst h'; decide)

theorem fallback_route_invariant (q : Str) (ctx : Option RouteContext) :
    routingInvariant (fallback_routing q ctx) := by
  simp only [fallback_routing]
  split_ifs <;> decide

/-- C2: Every `RoutingDecision` the Router produces — via the rule-based fast
path, via parsing the model path's response, or via the failure fallback —
has an empty `pipeline` exactly when its `agent_type` is
`general_knowledge`; every other `agent_type` comes with a non-empty
pipeline. -/
theorem C2_routing_decision_invariant (query : Str) (context : Option RouteContext)
    (agentInitialized modelRaises : Bool) :
    routingInvariant (route_query query context agentInitialized modelRaises) := by
  unfold route_query
  cases hq : quick_route_analysis query context with
  | some d => exact quick_route_invariant query context d hq
  | none =>
      cases agentInitialized <;> cases modelRaises <;>
        first
          | exact fallback_route_invariant query context
          | exact (show routingInvariant (parse_routing_response aiFixedRoutingResponse) by decide)

/-! ## C9: fast-path determinism on `"What is 5 + 3?"` -/

/-- The decision the arithmetic fast-path rule produces. -/
def mathRouteDecision : RoutingDecision :=
  ⟨.general_knowledge, S "Mathematical calculation or equation detected", [], S "high"⟩

/-- "No documents present in the session context". -/
def ctxNoDocs : Option RouteContext → Prop
  | none => True
  | some c => c.documents_uploaded = false ∧ c.has_documents = false

/-- C9: for the query `"What is 5 + 3?"` with no documents in the context,
`route_query` returns `general_knowledge` with an empty pipeline, and the
decision is produced by the rule-based fast path (`_quick_route_analysis`),
independent of the model-call booleans. -/
theorem C9_fast_path_math (context : Option RouteContext)
    (agentInitialized modelRaises : Bool) (_hnd : ctxNoDocs context) :
    route_query (S "What is 5 + 3?") context agentInitialized modelRaises =
      mathRouteDecision ∧
    quick_route_analysis (S "What is 5 + 3?") context = some mathRouteDecision := by
  have hm : mathDetected (lowerStr (S "What is 5 + 3?")) = true := by decide
  have hq : quick_route_analysis (S "What is 5 + 3?") context = some mathRouteDecision := by
    unfold quick_route_analysis
    simp [hm, mathRouteDecision]
  refine ⟨?_, hq⟩
  unfold route_query
  rw [hq]

/-- Witness for C9 at the empty context. -/
theorem C9_fast_path_math_witness :
    route_query (S "What is 5 + 3?") none true false = mathRouteDecision ∧
    quick_route_analysis (S "What is 5 + 3?") none = some mathRouteDecision :=
  C9_fast_path_math none true false trivial

/-! ## C10: pipeline-level status is always "success" -/

theorem process_with_agent_status (t q : Str) :
    (process_with_agent t q).status =
      if t ∈ registryKeys then S "success" else S "error" := by
  unfold process_with_agent registryAgentTag
  split_ifs with h1 h2 h3 h4 h5 <;>
    simp_all [registryKeys, List.mem_cons, beq_iff_eq, StageResult.status]

/-- C10: `AgentRegistry.process_pipeline` always reports top-level status
`"success"`, for every pipeline and query; stage failures (exactly the
pipeline entries that name no registered agent) are visible only in the
individual stage results. -/
theorem C10_pipeline_status_success (pipeline : List Str) (query : Str) :
    (process_pipeline pipeline query).status = S "success" ∧
    (process_pipeline pipeline query).individual_results.map (fun r => r.status) =
      pipeline.map (fun t => if t ∈ registryKeys then S "success" else S "error") := by
  refine ⟨rfl, ?_⟩
  unfold process_pipeline
  simp only [List.map_map]
  exact List.map_congr_left (fun t _ => process_with_agent_status t query)

/-! ## C4: session updates on success vs. failure paths -/

theorem getOrDefault_updAssoc (st : Sessions) (sid : Str) (v : Session) :
    getOrDefault (updAssoc st sid v) sid = v := by
  unfold getOrDefault
  rw [getSession_updAssoc_self]
  rfl

/-- C4 counterexample: when an exception is caught (`exc = some "boom"`),
`process_query` returns the status-error result but appends no history
entry and leaves `previous_agent` untouched — the claim's "failure paths
update session state exactly as success paths do" fails on the empty
session store. -/
theorem C4_counterexample :
    (process_query [] (S "q") (S "s1") none (some (S "boom")) true false).2.status =
      S "error" ∧
    (process_query [] (S "q") (S "s1") none (some (S "boom")) true false).2.error =
      some (S "boom") ∧
    histLen (process_query [] (S "q") (S "s1") none (some (S "boom")) true false).1
      (S "s1") = 0 ∧
    (getOrDefault
      (process_query [] (S "q") (S "s1") none (some (S "boom")) true false).1
      (S "s1")).previous_agent = none := by
  decide

/-- C4 amended: on the non-exceptional path `process_query` appends exactly
one history entry to the session and sets `previous_agent` to the routing
decision's agent type; on the exception path it returns the status-error
result carrying the message, but the session's history and
`previous_agent` are left unchanged (only the lazily created default
session entry is stored). -/
theorem C4_session_update (st : Sessions) (q sid : Str) (ctx : Option CallerCtx)
    (ai mr : Bool) :
    (histLen (process_query st q sid ctx none ai mr).1 sid = histLen st sid + 1 ∧
     (process_query st q sid ctx none ai mr).2.status = S "success" ∧
     ∃ rd, (process_query st q sid ctx none ai mr).2.routing_decision = some rd ∧
       (getOrDefault (process_query st q sid ctx none ai mr).1 sid).previous_agent =
         some rd.agent_type.value) ∧
    (∀ m, histLen (process_query st q sid ctx (some m) ai mr).1 sid = histLen st sid ∧
          (getOrDefault (process_query st q sid ctx (some m) ai mr).1 sid).previous_agent =
            (getOrDefault st sid).previous_agent ∧
          (process_query st q sid ctx (some m) ai mr).2.status = S "error" ∧
          (process_query st q sid ctx (some m) ai mr).2.error = some m) := by
  constructor
  · refine ⟨?_, rfl, ?_⟩
    · show histLen
        (update_session_context (updAssoc st sid (getOrDefault st sid)) sid _ _) sid =
        histLen st sid + 1
      unfold update_session_context histLen
      rw [getOrDefault_updAssoc, getOrDefault_updAssoc]
      simp
    · refine ⟨_, rfl, ?_⟩
      show (getOrDefault
        (update_session_context (updAssoc st sid (getOrDefault st sid)) sid _ _) sid).previous_agent = _
      unfold update_session_context
      rw [getOrDefault_updAssoc]
  · intro m
    refine ⟨?_, ?_, rfl, rfl⟩
    · show histLen (updAssoc st sid (getOrDefault st sid)) sid = histLen st sid
      unfold histLen
      rw [getOrDefault_updAssoc]
    · show (getOrDefault (updAssoc st sid (getOrDefault st sid)) sid).previous_agent = _
      rw [getOrDefault_updAssoc]

/-! ## C3: the structured-response parser -/

theorem parseMembers_isObj (fuel : Nat) :
    ∀ s acc j r, parseMembers fuel s acc = some (j, r) → j.isObj = true := by
  induction fuel with
  | zero =>
      intro s acc j r h
      simp [parseMembers] at h
  | succ f ih =>
      intro s acc j r h
      unfold parseMembers at h
      split at h
      · split at h
        · exact Option.noConfusion h
        · split at h
          · split at h
            · exact Option.noConfusion h
            · split at h
              · exact ih _ _ _ _ h
              · split at h
                · simp only [Option.some.injEq, Prod.mk.injEq] at h
                  rw [← h.1]
                  rfl
                · exact Option.noConfusion h
              · exact Option.noConfusion h
          · exact Option.noConfusion h
      · exact Option.noConfusion h

theorem parseValue_lbrace (fuel : Nat) (t : Str) (j : Json) (r : Str)
    (h : parseValue fuel (Char.ofNat 123 :: t) = some (j, r)) : j.isObj = true := by
  cases fuel with
  | zero => simp [parseValue] at h
  | succ f =>
      simp only [parseValue, beq_self_eq_true, if_true] at h
      split at h
      · split at h
        · simp only [Option.some.injEq, Prod.mk.injEq] at h
          rw [← h.1]
          rfl
        · exact parseMembers_isObj f _ _ _ _ h
      · exact Option.noConfusion h

theorem loads_lbrace (t : Str) (j : Json)
    (h : loads (Char.ofNat 123 :: t) = some j) : j.isObj = true := by
  unfold loads at h
  rw [show (Char.ofNat 123 :: t).dropWhile isJsonWs = Char.ofNat 123 :: t by
        simp [List.dropWhile_cons, show isJsonWs (Char.ofNat 123) = false from rfl]] at h
  cases hpv : parseValue (2 * (Char.ofNat 123 :: t).length + 4) (Char.ofNat 123 :: t) with
  | none => rw [hpv] at h; exact Option.noConfusion h
  | some p =>
      rw [hpv] at h
      obtain ⟨jv, rest⟩ := p
      dsimp only at h
      split at h
      · injection h with h'
        exact h' ▸ parseValue_lbrace _ _ _ _ hpv
      · exact Option.noConfusion h

theorem strFind_prefix (hay needle : Str) :
    ∀ i, strFind hay needle = some i → needle.isPrefixOf (hay.drop i) = true := by
  induction hay with
  | nil =>
      intro i h
      unfold strFind at h
      split at h
      · rename_i hemp
        injection h with h'
        subst h'
        have hn : needle = [] := by
          cases needle with
          | nil => rfl
          | cons a b => simp at hemp
        subst hn
        rfl
      · exact Option.noConfusion h
  | cons c tl ih =>
      intro i h
      unfold strFind at h
      split at h
      · rename_i hpre
        injection h with h'
        subst h'
        simpa using hpre
      · simp only [Option.map_eq_some'] at h
        obtain ⟨i', hi', hii⟩ := h
        subst hii
        simpa using ih i' hi'

/-- C3 counterexample: a fenced JSON array is returned as-is, so
`parse_json_response` does not always return a mapping. -/
theorem C3_counterexample :
    parse_json_response (S "```json\n[1, 2]\n```") =
      Json.arr [Json.num (S "1"), Json.num (S "2")] ∧
    Json.isObj (parse_json_response (S "```json\n[1, 2]\n```")) = false :=
  ⟨rfl, rfl⟩

/-- C3 amended: `parse_json_response` is total (never raises) and returns a
JSON value.  When the text contains a closed ```` ```json ```` fence, the
fenced substring alone decides the result — its parsed value on success
(which need not be a mapping), the empty mapping on parse failure, with no
fall-through to the bare candidate.  Without a closed fence the bare
substring from the first `{` to the last `}` decides: on success the result
is that embedded object and is always a mapping; if no candidate exists or
parsing fails, the result is the empty mapping. -/
theorem C3_parse_json_characterization (response : Str) :
    (∀ i e, strFind response (S "```json") = some i →
        strFindFrom response (S "```") (i + 7) = some e →
        parse_json_response response =
          (loads (stripStr (strSlice response (i + 7) e))).getD (Json.obj [])) ∧
    (strFind response (S "```json") = none →
        parse_json_response response = bareParse response) ∧
    (∀ i, strFind response (S "```json") = some i →
        strFindFrom response (S "```") (i + 7) = none →
        parse_json_response response = bareParse response) ∧
    (∀ s e j, strFind response lbrace = some s → strRFind response rbrace = some e →
        loads (strSlice response s (e + 1)) = some j →
        bareParse response = j ∧ j.isObj = true) ∧
    (∀ s e, strFind response lbrace = some s → strRFind response rbrace = some e →
        loads (strSlice response s (e + 1)) = none → bareParse response = Json.obj []) ∧
    (strFind response lbrace = none ∨ strRFind response rbrace = none →
        bareParse response = Json.obj []) := by
  refine ⟨?_, ?_, ?_, ?_, ?_, ?_⟩
  · intro i e hi he
    unfold parse_json_response
    rw [hi]
    simp only [he]
    cases hl : loads (stripStr (strSlice response (i + 7) e)) <;> simp [hl]
  · intro hnone
    unfold parse_json_response
    rw [hnone]
  · intro i hi hnone
    unfold parse_json_response
    rw [hi]
    simp only [hnone]
  · intro s e j hs he hj
    have hpre := strFind_prefix response lbrace s hs
    have hdrop : ∃ rest, response.drop s = Char.ofNat 123 :: rest := by
      cases hd : response.drop s with
      | nil => rw [hd] at hpre; simp [lbrace, List.isPrefixOf] at hpre
      | cons c rest =>
          rw [hd] at hpre
          simp [lbrace, List.isPrefixOf] at hpre
          exact ⟨rest, by rw [hpre]⟩
    obtain ⟨rest, hdrop⟩ := hdrop
    constructor
    · unfold bareParse
      rw [hs, he]
      simp only [hj]
    · have hslice : strSlice response s (e + 1) = (Char.ofNat 123 :: rest).take (e + 1 - s) := by
        unfold strSlice
        rw [hdrop]
      cases hn : e + 1 - s with
      | zero =>
          rw [hslice, hn] at hj
          simp only [List.take_zero] at hj
          rw [show loads ([] : Str) = none from rfl] at hj
          exact Option.noConfusion hj
      | succ k =>
          rw [hslice, hn] at hj
          simp only [List.take_succ_cons] at hj
          exact loads_lbrace _ _ hj
  · intro s e hs he hfail
    unfold bareParse
    rw [hs, he]
    simp only [hfail]
  · intro h
    unfold bareParse
    rcases h with h | h
    · rw [h]
    · rw [h]
      cases strFind response lbrace <;> rfl

/-- Witness for the C3 characterization: a bare embedded object is returned
as that mapping. -/
theorem C3_parse_json_characterization_witness :
    parse_json_response (S "x \x7b\"a\": 1\x7d") = Json.obj [(S "a", Json.num (S "1"))] ∧
    (Json.obj [(S "a", Json.num (S "1"))]).isObj = true := by
  have h := C3_parse_json_characterization (S "x \x7b\"a\": 1\x7d")
  have h2 := h.2.1 (by decide)
  have h4 := h.2.2.2.1 2 9 (Json.obj [(S "a", Json.num (S "1"))]) (by decide) (by decide) (by rfl)
  exact ⟨h2.trans h4.1, rfl⟩

/-! ## C6: question generation -/

theorem get_fallback_questions_length (prompt : Str) (docs : List Document) :
    (get_fallback_questions prompt docs).length = 8 := by
  simp only [get_fallback_questions]
  split_ifs <;> rfl

/-- C6 counterexample: a parsable response whose `questions` value is the
truthy non-list `5` makes `questions[:20]` raise a `TypeError`, so
`generate_questions` does not return a (non-empty) list for every
prompt/document combination. -/
theorem C6_counterexample :
    generate_questions (S "\x7b\"questions\": 5\x7d") (S "hi") [] =
      Except.error (S "TypeError") := rfl

/-- C6 amended: whenever the parsed generation response is a mapping whose
`questions` value is a list or is falsy (in particular when the response is
unparsable, lacks the key, or carries an empty list), `generate_questions`
returns a non-empty list of at most `MAX_QUESTIONS = 20` questions; the cap
is applied to the final value, i.e. after any fallback substitution.  (The
proviso is necessary: the counterexample shows a truthy non-list
`questions` value of `5` raising a `TypeError` at `questions[:20]`.) -/
theorem C6_generate_questions (qResp prompt : Str) (docs : List Document)
    (hobj : (parse_json_response qResp).isObj = true)
    (hq : (∃ l0, (parse_json_response qResp).getD (S "questions") (Json.arr []) = Json.arr l0) ∨
          ((parse_json_response qResp).getD (S "questions") (Json.arr [])).truthy = false) :
    ∃ l, generate_questions qResp prompt docs = .ok (Json.arr l) ∧
      l ≠ [] ∧ l.length ≤ MAX_QUESTIONS ∧
      (∀ l0, (parse_json_response qResp).getD (S "questions") (Json.arr []) = Json.arr l0 →
          l0 ≠ [] → l = l0.take MAX_QUESTIONS) ∧
      (((parse_json_response qResp).getD (S "questions") (Json.arr [])).truthy = false →
          l = ((get_fallback_questions prompt docs).map Json.str).take MAX_QUESTIONS) := by
  cases hqd : parse_json_response qResp with
  | obj fields =>
      rw [hqd] at hq
      unfold generate_questions
      rw [hqd]
      dsimp only
      by_cases ht : ((Json.obj fields).getD (S "questions") (Json.arr [])).truthy = true
      · rcases hq with ⟨l0, hl0⟩ | hfalsy
        · have hl0ne : l0 ≠ [] := by
            rw [hl0] at ht
            simpa [Json.truthy] using ht
          refine ⟨l0.take MAX_QUESTIONS, ?_, ?_, ?_, ?_, ?_⟩
          · simp only [hl0]
            rw [if_pos (show (Json.arr l0).truthy = true by
              cases l0 with
              | nil => exact absurd rfl hl0ne
              | cons a t => rfl)]
            rfl
          · simp [List.take_eq_nil_iff, hl0ne, MAX_QUESTIONS]
          · simp [List.length_take]
          · intro l1 hl1 _
            rw [hl1] at hl0
            cases hl0
            rfl
          · intro hf
            exact absurd ht (by rw [hf]; decide)
        · exact absurd ht (by rw [hfalsy]; decide)
      · have ht' : ((Json.obj fields).getD (S "questions") (Json.arr [])).truthy = false := by
          revert ht
          cases ((Json.obj fields).getD (S "questions") (Json.arr [])).truthy <;> simp
        refine ⟨((get_fallback_questions prompt docs).map Json.str).take MAX_QUESTIONS,
          ?_, ?_, ?_, ?_, ?_⟩
        · simp only [ht', Bool.false_eq_true, if_false]
          rfl
        · have h8 : ((get_fallback_questions prompt docs).map Json.str).length = 8 := by
            rw [List.length_map, get_fallback_questions_length]
          simp only [ne_eq, List.take_eq_nil_iff, MAX_QUESTIONS]
          intro hc
          rcases hc with hc | hc
          · exact absurd hc (by decide)
          · rw [hc] at h8
            simp at h8
        · simp [List.length_take]
        · intro l1 hl1 hl1ne
          rw [hl1] at ht'
          simp [Json.truthy, hl1ne] at ht'
        · intro _
          rfl
  | null => rw [hqd] at hobj; exact absurd hobj (by decide)
  | bool b => rw [hqd] at hobj; exact absurd hobj (by simp [Json.isObj])
  | num raw => rw [hqd] at hobj; exact absurd hobj (by simp [Json.isObj])
  | str s => rw [hqd] at hobj; exact absurd hobj (by simp [Json.isObj])
  | arr l => rw [hqd] at hobj; exact absurd hobj (by simp [Json.isObj])

/-- Witness for C6's amended theorem: an unparsable response still yields a
non-empty capped question list (the generic fallback bank). -/
theorem C6_generate_questions_witness :
    ∃ l, generate_questions (S "unparsable") (S "hello") [] = .ok (Json.arr l) ∧
      l ≠ [] ∧ l.length ≤ MAX_QUESTIONS ∧
      (∀ l0, (parse_json_response (S "unparsable")).getD (S "questions") (Json.arr []) = Json.arr l0 →
          l0 ≠ [] → l = l0.take MAX_QUESTIONS) ∧
      (((parse_json_response (S "unparsable")).getD (S "questions") (Json.arr [])).truthy = false →
          l = ((get_fallback_questions (S "hello") []).map Json.str).take MAX_QUESTIONS) :=
  C6_generate_questions (S "unparsable") (S "hello") []
    (by rfl) (Or.inr (by rfl))

/-! ## C8 and C1: the extraction loop -/

/-- An extraction response that triggers neither the rate-limit
short-circuit nor a dynamic type error: it does not contain the sentinel,
and its parse result is a dict or falsy (the three outcomes the claims
enumerate: success, empty mapping, fallback). -/
def cleanResponse (r : Str) : Prop :=
  strContains r rateLimitSentinel = false ∧
  ((parse_json_response r).isObj = true ∨ (parse_json_response r).truthy = false)

theorem assocLookup_objInsert (fields : List (Str × Json)) (k : Str) (v : Json) :
    assocLookup (objInsert fields k v) k = some v := by
  induction fields with
  | nil => simp [objInsert, assocLookup]
  | cons p rest ih =>
      obtain ⟨k', v'⟩ := p
      by_cases h : (k' == k) = true
      · simp [objInsert, assocLookup, h]
      · simp [objInsert, assocLookup, h, ih]

theorem getD_fallbackRecord (fn tr : Str) :
    Json.getD (fallbackRecord fn tr) (S "document_name") Json.null = Json.str fn := by
  simp [fallbackRecord, Json.getD, assocLookup]

theorem recordFor_clean (fn content resp : Str)
    (h : (parse_json_response resp).isObj = true ∨ (parse_json_response resp).truthy = false) :
    ∃ r, recordFor fn content resp = .ok r ∧
      Json.getD r (S "document_name") Json.null = Json.str fn := by
  unfold recordFor
  dsimp only
  by_cases ht : (parse_json_response resp).truthy = true
  · rw [if_pos ht]
    rcases h with hobj | hfalsy
    · cases hd : parse_json_response resp with
      | obj fields =>
          by_cases he : ((Json.obj fields).getD (S "extractions") .null).truthy = true
          · refine ⟨_, by dsimp only; rw [if_pos he], ?_⟩
            simp [Json.getD, assocLookup_objInsert]
          · refine ⟨_, by dsimp only; rw [if_neg he], getD_fallbackRecord _ _⟩
      | null => rw [hd] at hobj; exact absurd hobj (by decide)
      | bool b => rw [hd] at hobj; exact absurd hobj (by simp [Json.isObj])
      | num raw => rw [hd] at hobj; exact absurd hobj (by simp [Json.isObj])
      | str s => rw [hd] at hobj; exact absurd hobj (by simp [Json.isObj])
      | arr l => rw [hd] at hobj; exact absurd hobj (by simp [Json.isObj])
    · rw [ht] at hfalsy
      exact absurd hfalsy (by decide)
  · rw [if_neg ht]
    exact ⟨_, rfl, getD_fallbackRecord _ _⟩

theorem extractAux_clean (respond : Nat → Str) :
    ∀ (docs : List Document) (i : Nat),
      (∀ j < docs.length, cleanResponse (respond (i + j))) →
      ∃ recs, extractAux respond i docs = .ok recs docs.length ∧
        recs.map (fun r => Json.getD r (S "document_name") Json.null) =
          docs.map (fun d => Json.str d.1) := by
  intro docs
  induction docs with
  | nil => exact fun i _ => ⟨[], rfl, rfl⟩
  | cons d rest ih =>
      intro i h
      obtain ⟨fn, content⟩ := d
      have h0 : cleanResponse (respond i) := by
        have := h 0 (by simp)
        rwa [Nat.add_zero] at this
      obtain ⟨r, hr, hrn⟩ := recordFor_clean fn content (respond i) h0.2
      obtain ⟨recs, hrecs, hmap⟩ := ih (i + 1) (fun j hj => by
        have := h (j + 1) (by simpa using Nat.succ_lt_succ hj)
        rwa [show i + (j + 1) = i + 1 + j by omega] at this)
      refine ⟨r :: recs, ?_, ?_⟩
      · unfold extractAux
        rw [if_neg (by rw [h0.1]; exact Bool.false_ne_true), hr, hrecs]
        rfl
      · simpa [hrn] using hmap

/-- C8: for `N` input documents whose extraction responses are free of the
rate-limit sentinel and parse to a dict or to something falsy (i.e. each
document's extraction succeeded, parsed to an empty mapping, or used the
"Document summary" fallback), `_extract_information` returns exactly `N`
records whose `document_name` fields are exactly the `N` input file names,
in input order. -/
theorem C8_document_isolation (respond : Nat → Str) (docs : List Document)
    (hclean : ∀ j < docs.length, cleanResponse (respond j)) :
    ∃ recs, extract_information respond docs = .ok recs ∧
      recs.length = docs.length ∧
      recs.map (fun r => Json.getD r (S "document_name") Json.null) =
        docs.map (fun d => Json.str d.1) := by
  obtain ⟨recs, hrecs, hmap⟩ := extractAux_clean respond docs 0
    (fun j hj => by simpa using hclean j hj)
  refine ⟨recs, ?_, ?_, hmap⟩
  · unfold extract_information
    rw [hrecs]
  · have := congrArg List.length hmap
    simpa using this

/-- Witness for C8 with two documents: one response parses to a dict with a
truthy `extractions` list, the other is unparsable and takes the fallback. -/
theorem C8_document_isolation_witness :
    ∃ recs,
      extract_information
        (fun i => if i == 0
          then S "\x7b\"extractions\": [\x7b\"question\": \"q\", \"answer\": \"a\"\x7d]\x7d"
          else S "junk")
        [(S "a.pdf", S "aaa"), (S "b.pdf", S "bbb")] = .ok recs ∧
      recs.length = [(S "a.pdf", S "aaa"), (S "b.pdf", S "bbb")].length ∧
      recs.map (fun r => Json.getD r (S "document_name") Json.null) =
        [(S "a.pdf", S "aaa"), (S "b.pdf", S "bbb")].map (fun d => Json.str d.1) :=
  C8_document_isolation _ _ (by
    intro j hj
    match j, hj with
    | 0, _ => exact ⟨by rfl, Or.inl (by rfl)⟩
    | 1, _ => exact ⟨by rfl, Or.inl (by rfl)⟩)

theorem extractAux_rateLimited (respond : Nat → Str) :
    ∀ (docs : List Document) (i k : Nat), k < docs.length →
      (∀ j < k, cleanResponse (respond (i + j))) →
      strContains (respond (i + k)) rateLimitSentinel = true →
      extractAux respond i docs = .rateLimited (k + 1) := by
  intro docs
  induction docs with
  | nil => intro i k hk; exact absurd hk (by simp)
  | cons d rest ih =>
      intro i k hk hclean hrl
      obtain ⟨fn, content⟩ := d
      cases k with
      | zero =>
          rw [Nat.add_zero] at hrl
          unfold extractAux
          rw [if_pos hrl]
      | succ k' =>
          have h0 : cleanResponse (respond i) := by
            have := hclean 0 (Nat.succ_pos _)
            rwa [Nat.add_zero] at this
          obtain ⟨r, hr, _⟩ := recordFor_clean fn content (respond i) h0.2
          have hrest := ih (i + 1) k' (by simpa using Nat.lt_of_succ_lt_succ hk)
            (fun j hj => by
              have := hclean (j + 1) (Nat.succ_lt_succ hj)
              rwa [show i + (j + 1) = i + 1 + j by omega] at this)
            (by rwa [show i + 1 + k' = i + (k' + 1) by omega])
          unfold extractAux
          rw [if_neg (by rw [h0.1]; exact Bool.false_ne_true), hr, hrest]

/-- C1: if the extraction response for document `k` (0-based) carries the
rate-limit sentinel and every earlier document's response was clean, the
whole comparison aborts: exactly `k + 1` extraction calls are made (none
for documents after `k`), the already-collected records are discarded
(`_extract_information` returns `[]`), and `process_comparison` surfaces
the user-facing rate-limit message. -/
theorem C1_rate_limit_short_circuit (qResp : Str) (respond : Nat → Str)
    (prompt : Str) (docs : List Document) (k : Nat)
    (hlen : 2 ≤ docs.length) (hk : k < docs.length)
    (hclean : ∀ j < k, cleanResponse (respond j))
    (hrl : strContains (respond k) rateLimitSentinel = true)
    (hq : ∃ qs, generate_questions qResp prompt docs = .ok qs) :
    process_comparison qResp respond prompt docs = .ok rateLimitMessage ∧
    extract_information respond docs = .ok [] ∧
    extractionCalls respond docs = k + 1 := by
  have haux : extractAux respond 0 docs = .rateLimited (k + 1) :=
    extractAux_rateLimited respond docs 0 k hk
      (fun j hj => by simpa using hclean j hj)
      (by simpa using hrl)
  have hext : extract_information respond docs = .ok [] := by
    unfold extract_information
    rw [haux]
  refine ⟨?_, hext, ?_⟩
  · obtain ⟨qs, hqs⟩ := hq
    unfold process_comparison
    rw [if_neg (by omega), hqs, hext]
    rfl
  · unfold extractionCalls
    rw [haux]
    rfl

/-- Witness for C1: two documents, rate limit on the first call. -/
theorem C1_rate_limit_short_circuit_witness :
    process_comparison (S "x")
      (fun _ => S "Rate limit exceeded. Please try again in a moment.")
      (S "compare") [(S "a.pdf", S "aaa"), (S "b.pdf", S "bbb")] =
        .ok rateLimitMessage ∧
    extract_information (fun _ => S "Rate limit exceeded. Please try again in a moment.")
      [(S "a.pdf", S "aaa"), (S "b.pdf", S "bbb")] = .ok [] ∧
    extractionCalls (fun _ => S "Rate limit exceeded. Please try again in a moment.")
      [(S "a.pdf", S "aaa"), (S "b.pdf", S "bbb")] = 0 + 1 :=
  C1_rate_limit_short_circuit (S "x") _ (S "compare") _ 0
    (by decide) (by decide)
    (fun j hj => absurd hj (by omega))
    (by decide)
    ⟨Json.arr (genericBank.map Json.str), by rfl⟩

/-! ## C7: fallback bank selection -/

theorem isPrefixOf_append_space (n : Str) (hn : ' ' ∉ n) :
    ∀ (a b : Str), n.isPrefixOf (a ++ ' ' :: b) = n.isPrefixOf a := by
  induction n with
  | nil => intro a b; simp [List.isPrefixOf]
  | cons c n' ih =>
      intro a b
      cases a with
      | nil =>
          have hc : (c == ' ') = false := by
            have : c ≠ ' ' := fun h => hn (h ▸ List.mem_cons_self c n')
            simpa using this
          simp [List.isPrefixOf, hc]
      | cons x a' =>
          have hn' : ' ' ∉ n' := fun h => hn (List.mem_cons_of_mem c h)
          simp [List.isPrefixOf, ih hn' a' b]

theorem strContains_append_space (n : Str) (hn : ' ' ∉ n) (hne : n ≠ []) :
    ∀ (a b : Str), strContains (a ++ ' ' :: b) n = (strContains a n || strContains b n) := by
  intro a
  induction a with
  | nil =>
      intro b
      have h1 : n.isPrefixOf (' ' :: b) = false := by
        have := isPrefixOf_append_space n hn [] b
        simp only [List.nil_append] at this
        rw [this]
        cases n with
        | nil => exact absurd rfl hne
        | cons c n' => rfl
      simp [strContains, h1, List.isEmpty_iff, hne]
  | cons x a' ih =>
      intro b
      have hpre := isPrefixOf_append_space n hn (x :: a') b
      simp only [List.cons_append] at hpre ⊢
      rw [show strContains (x :: (a' ++ ' ' :: b)) n =
            (n.isPrefixOf (x :: (a' ++ ' ' :: b)) || strContains (a' ++ ' ' :: b) n) from rfl,
          show strContains (x :: a') n = (n.isPrefixOf (x :: a') || strContains a' n) from rfl]
      rw [hpre, ih b, Bool.or_assoc]

theorem strContains_joinSpace (n : Str) (hn : ' ' ∉ n) (hne : n ≠ []) :
    ∀ parts : List Str,
      strContains (joinSpace parts) n = parts.any (fun p => strContains p n) := by
  intro parts
  induction parts with
  | nil =>
      simp [joinSpace, strContains, List.isEmpty_iff, hne]
  | cons x xs ih =>
      cases xs with
      | nil => simp [joinSpace]
      | cons y ys =>
          rw [show joinSpace (x :: y :: ys) = x ++ ' ' :: joinSpace (y :: ys) from rfl,
              strContains_append_space n hn hne x (joinSpace (y :: ys)), ih]
          simp

theorem anyCongrMem {α : Type} {l : List α} {p q : α → Bool}
    (h : ∀ a ∈ l, p a = q a) : l.any p = l.any q := by
  induction l with
  | nil => rfl
  | cons a t ih =>
      simp only [List.any_cons]
      rw [h a (List.mem_cons_self a t), ih (fun b hb => h b (List.mem_cons_of_mem a hb))]

theorem strContains_allText (prompt : Str) (docs : List Document) (w : Str)
    (hw : ' ' ∉ w) (hne : w ≠ []) :
    strContains (allText prompt docs) w =
      (strContains (lowerStr prompt) w ||
        docs.any (fun d => strContains (lowerStr d.2) w)) := by
  unfold allText
  rw [strContains_append_space w hw hne, strContains_joinSpace w hw hne]
  congr 1
  induction docs with
  | nil => rfl
  | cons d rest ih => simp [List.any_cons, ih]

/-- "Some keyword of `kws` occurs, case-insensitively, in the prompt or in
some document's text." -/
def mentions (prompt : Str) (docs : List Document) (kws : List Str) : Prop :=
  ∃ w ∈ kws, (strContains (lowerStr prompt) w ||
    docs.any (fun d => strContains (lowerStr d.2) w)) = true

theorem any_allText_iff_mentions (prompt : Str) (docs : List Document)
    (kws : List Str) (hk : ∀ w ∈ kws, ' ' ∉ w ∧ w ≠ []) :
    (kws.any (fun w => strContains (allText prompt docs) w) = true) ↔
      mentions prompt docs kws := by
  rw [anyCongrMem (fun w hw => strContains_allText prompt docs w (hk w hw).1 (hk w hw).2)]
  simp only [mentions, List.any_eq_true]

/-- C7: exactly one fallback bank is selected by a case-insensitive scan of
the prompt together with all document texts, first matching keyword set
winning in the fixed order lease → contract → policy → generic; the four
banks are pairwise distinct. -/
theorem C7_fallback_bank_selection (prompt : Str) (docs : List Document) :
    (mentions prompt docs leaseKeywords →
        get_fallback_questions prompt docs = leaseBank) ∧
    (¬ mentions prompt docs leaseKeywords → mentions prompt docs contractKeywords →
        get_fallback_questions prompt docs = contractBank) ∧
    (¬ mentions prompt docs leaseKeywords → ¬ mentions prompt docs contractKeywords →
        mentions prompt docs policyKeywords →
        get_fallback_questions prompt docs = policyBank) ∧
    (¬ mentions prompt docs leaseKeywords → ¬ mentions prompt docs contractKeywords →
        ¬ mentions prompt docs policyKeywords →
        get_fallback_questions prompt docs = genericBank) ∧
    (leaseBank ≠ contractBank ∧ leaseBank ≠ policyBank ∧ leaseBank ≠ genericBank ∧
      contractBank ≠ policyBank ∧ contractBank ≠ genericBank ∧ policyBank ≠ genericBank) := by
  have hL := any_allText_iff_mentions prompt docs leaseKeywords (by decide)
  have hC := any_allText_iff_mentions prompt docs contractKeywords (by decide)
  have hP := any_allText_iff_mentions prompt docs policyKeywords (by decide)
  refine ⟨?_, ?_, ?_, ?_, by decide⟩
  · intro hm
    unfold get_fallback_questions
    rw [if_pos (hL.mpr hm)]
  · intro hnl hm
    unfold get_fallback_questions
    rw [if_neg (fun h => hnl (hL.mp h)), if_pos (hC.mpr hm)]
  · intro hnl hnc hm
    unfold get_fallback_questions
    rw [if_neg (fun h => hnl (hL.mp h)), if_neg (fun h => hnc (hC.mp h)),
        if_pos (hP.mpr hm)]
  · intro hnl hnc hnp
    unfold get_fallback_questions
    rw [if_neg (fun h => hnl (hL.mp h)), if_neg (fun h => hnc (hC.mp h)),
        if_neg (fun h => hnp (hP.mp h))]

/-- Witness for C7: a prompt mentioning "lease" selects the lease bank. -/
theorem C7_fallback_bank_selection_witness :
    get_fallback_questions (S "Compare these lease agreements")
      [(S "a.pdf", S "RENT and landlord terms"), (S "b.pdf", S "rent")] = leaseBank :=
  (C7_fallback_bank_selection (S "Compare these lease agreements")
    [(S "a.pdf", S "RENT and landlord terms"), (S "b.pdf", S "rent")]).1
    ⟨S "lease", by decide, by decide⟩

/-! ## C5: key-difference detection

`buildQuestions` is the faithful dict-building fold; the spec side below
describes the same data directly: the distinct question texts in first-
occurrence order, for each question the distinct answering document names in
first-occurrence order, and for each the last answer that document gave.
The characterization theorem connects the two. -/

theorem mem_dedupFirstAux {α : Type} [DecidableEq α] :
    ∀ (l seen : List α) (x : α), x ∈ dedupFirstAux seen l ↔ x ∈ l ∧ x ∉ seen := by
  intro l
  induction l with
  | nil => simp [dedupFirstAux]
  | cons a t ih =>
      intro seen x
      by_cases ha : a ∈ seen
      · rw [show dedupFirstAux seen (a :: t) = dedupFirstAux seen t from by
            simp [dedupFirstAux, ha]]
        rw [ih seen x]
        constructor
        · exact fun ⟨hx, hs⟩ => ⟨List.mem_cons_of_mem a hx, hs⟩
        · rintro ⟨hx, hs⟩
          rcases List.mem_cons.mp hx with rfl | hx
          · exact absurd ha hs
          · exact ⟨hx, hs⟩
      · rw [show dedupFirstAux seen (a :: t) = a :: dedupFirstAux (a :: seen) t from by
            simp [dedupFirstAux, ha]]
        constructor
        · intro hx
          rcases List.mem_cons.mp hx with rfl | hx
          · exact ⟨List.mem_cons_self _ _, ha⟩
          · obtain ⟨h1, h2⟩ := (ih (a :: seen) x).mp hx
            exact ⟨List.mem_cons_of_mem a h1,
              fun hs => h2 (List.mem_cons_of_mem a hs)⟩
        · rintro ⟨hx, hs⟩
          rcases List.mem_cons.mp hx with rfl | hx
          · exact List.mem_cons_self _ _
          · by_cases hxa : x = a
            · subst hxa; exact List.mem_cons_self _ _
            · exact List.mem_cons_of_mem a ((ih (a :: seen) x).mpr
                ⟨hx, fun hmem => by
                  rcases List.mem_cons.mp hmem with h | h
                  · exact hxa h
                  · exact hs h⟩)

theorem mem_dedupFirst {α : Type} [DecidableEq α] (l : List α) (x : α) :
    x ∈ dedupFirst l ↔ x ∈ l := by
  unfold dedupFirst
  rw [mem_dedupFirstAux]
  simp

theorem nodup_dedupFirstAux {α : Type} [DecidableEq α] :
    ∀ (l seen : List α), (dedupFirstAux seen l).Nodup := by
  intro l
  induction l with
  | nil => intro seen; simp [dedupFirstAux]
  | cons a t ih =>
      intro seen
      by_cases ha : a ∈ seen
      · rw [show dedupFirstAux seen (a :: t) = dedupFirstAux seen t from by
            simp [dedupFirstAux, ha]]
        exact ih seen
      · rw [show dedupFirstAux seen (a :: t) = a :: dedupFirstAux (a :: seen) t from by
            simp [dedupFirstAux, ha]]
        refine List.Nodup.cons ?_ (ih (a :: seen))
        intro hmem
        exact ((mem_dedupFirstAux t (a :: seen) a).mp hmem).2 (List.mem_cons_self _ _)

theorem nodup_dedupFirst {α : Type} [DecidableEq α] (l : List α) :
    (dedupFirst l).Nodup := nodup_dedupFirstAux l []

theorem dedupFirstAux_append_single {α : Type} [DecidableEq α] :
    ∀ (l seen : List α) (x : α),
      dedupFirstAux seen (l ++ [x]) =
        dedupFirstAux seen l ++ (if x ∈ seen ∨ x ∈ l then [] else [x]) := by
  intro l
  induction l with
  | nil =>
      intro seen x
      by_cases hx : x ∈ seen <;> simp [dedupFirstAux, hx]
  | cons a t ih =>
      intro seen x
      by_cases ha : a ∈ seen
      · rw [List.cons_append,
          show dedupFirstAux seen (a :: (t ++ [x])) = dedupFirstAux seen (t ++ [x]) from by
            simp [dedupFirstAux, ha],
          show dedupFirstAux seen (a :: t) = dedupFirstAux seen t from by
            simp [dedupFirstAux, ha],
          ih seen x]
        congr 1
        by_cases hx1 : x ∈ seen
        · simp [hx1]
        · by_cases hx2 : x ∈ t
          · simp [hx2]
          · by_cases hx3 : x = a
            · subst hx3
              simp [ha, hx2]
            · simp [hx1, hx2, List.mem_cons, hx3]
      · rw [List.cons_append,
          show dedupFirstAux seen (a :: (t ++ [x])) =
              a :: dedupFirstAux (a :: seen) (t ++ [x]) from by
            simp [dedupFirstAux, ha],
          show dedupFirstAux seen (a :: t) = a :: dedupFirstAux (a :: seen) t from by
            simp [dedupFirstAux, ha],
          ih (a :: seen) x]
        rw [List.cons_append]
        congr 2
        by_cases hx1 : x ∈ seen
        · simp [hx1, List.mem_cons]
        · by_cases hx2 : x ∈ t
          · simp [hx2]
          · by_cases hx3 : x = a
            · subst hx3
              simp [List.mem_cons, hx2]
            · simp [hx1, hx2, List.mem_cons, hx3]

theorem dedupFirst_append_single {α : Type} [DecidableEq α] (l : List α) (x : α) :
    dedupFirst (l ++ [x]) =
      if x ∈ l then dedupFirst l else dedupFirst l ++ [x] := by
  unfold dedupFirst
  rw [dedupFirstAux_append_single]
  by_cases hx : x ∈ l
  · simp [hx]
  · simp [hx]

theorem nodup_all_eq_length_le_one {α : Type} (l : List α) (hnd : l.Nodup)
    (heq : ∀ x ∈ l, ∀ y ∈ l, x = y) : l.length ≤ 1 := by
  cases l with
  | nil => simp
  | cons a t =>
      cases t with
      | nil => simp
      | cons b t' =>
          exfalso
          have hab : a = b := heq a (List.mem_cons_self _ _)
            b (List.mem_cons_of_mem a (List.mem_cons_self _ _))
          have := List.nodup_cons.mp hnd
          exact this.1 (hab ▸ List.mem_cons_self b t')

theorem dedupFirst_length_le_one {α : Type} [DecidableEq α] (l : List α)
    (heq : ∀ x ∈ l, ∀ y ∈ l, x = y) : (dedupFirst l).length ≤ 1 :=
  nodup_all_eq_length_le_one _ (nodup_dedupFirst l)
    (fun x hx y hy =>
      heq x ((mem_dedupFirst l x).mp hx) y ((mem_dedupFirst l y).mp hy))

theorem getLastD_mem {α : Type} : ∀ (l : List α) (c : α), l ≠ [] → l.getLastD c ∈ l := by
  intro l
  induction l with
  | nil => intro c h; exact absurd rfl h
  | cons a t ih =>
      intro c _
      cases t with
      | nil => simp [List.getLastD]
      | cons b t' =>
          rw [List.getLastD_cons]
          exact List.mem_cons_of_mem a (ih a (by simp))

theorem foldl_replace_getLastD {α : Type} :
    ∀ (l : List α) (c : α), l.foldl (fun _ v => v) c = l.getLastD c := by
  intro l
  induction l with
  | nil => intro c; rfl
  | cons a t ih => intro c; rw [List.foldl_cons, ih, List.getLastD_cons]

section GroupFold

variable {β γ : Type}

/-- One dict-update step: `m[k] = g(m.get(k, c), v)`. -/
def gStep (g : γ → β → γ) (c : γ) (m : List (Str × γ)) (p : Str × β) :
    List (Str × γ) :=
  updAssoc m p.1 (g (lookupD m p.1 c) p.2)

/-- Distinct keys of a pair stream, in first-occurrence order. -/
def keysOf (l : List (Str × β)) : List Str := dedupFirst (l.map Prod.fst)

/-- All payloads carried by a given key, in order. -/
def valsFor (l : List (Str × β)) (k : Str) : List β :=
  (l.filter (fun p => p.1 == k)).map Prod.snd

/-- Closed form of the dict built by folding `gStep` from the empty dict. -/
def charForm (g : γ → β → γ) (c : γ) (l : List (Str × β)) : List (Str × γ) :=
  (keysOf l).map (fun k => (k, (valsFor l k).foldl g c))

theorem lookupD_map_pairF (A : List Str) (F : Str → γ) (k : Str) (c : γ) :
    lookupD (A.map (fun a => (a, F a))) k c = if k ∈ A then F k else c := by
  induction A with
  | nil => simp [lookupD]
  | cons a t ih =>
      by_cases h : (a == k) = true
      · have : a = k := by simpa using h
        subst this
        simp [lookupD, h]
      · have hne : k ≠ a := fun hh => h (by simp [hh])
        simp only [List.map_cons, lookupD, h, if_false]
        rw [ih]
        simp [List.mem_cons, hne]

theorem updAssoc_map_pairF_mem (A : List Str) (F : Str → γ) (k : Str) (w : γ)
    (hnd : A.Nodup) (hk : k ∈ A) :
    updAssoc (A.map (fun a => (a, F a))) k w =
      A.map (fun a => (a, if a = k then w else F a)) := by
  induction A with
  | nil => exact absurd hk (by simp)
  | cons a t ih =>
      by_cases hak : a = k
      · subst hak
        simp only [List.map_cons, updAssoc, beq_self_eq_true, if_true, if_pos rfl]
        congr 1
        have hnot : a ∉ t := (List.nodup_cons.mp hnd).1
        refine (List.map_congr_left (fun x hx => ?_)).symm
        have hxa : x ≠ a := fun hh => hnot (hh ▸ hx)
        simp [hxa]
      · have hbeq : (a == k) = false := by simpa using hak
        have hk' : k ∈ t := by
          rcases List.mem_cons.mp hk with h | h
          · exact absurd h.symm hak
          · exact h
        simp only [List.map_cons, updAssoc, hbeq, Bool.false_eq_true, if_false, if_neg hak]
        congr 1
        exact ih (List.nodup_cons.mp hnd).2 hk'

theorem updAssoc_not_mem_key (m : List (Str × γ)) (k : Str) (w : γ)
    (hk : k ∉ m.map Prod.fst) : updAssoc m k w = m ++ [(k, w)] := by
  induction m with
  | nil => rfl
  | cons p t ih =>
      obtain ⟨k', v'⟩ := p
      have hne : k' ≠ k := fun hh => hk (by
        rw [List.map_cons, hh]
        exact List.mem_cons_self _ _)
      have hbeq : (k' == k) = false := by simpa using hne
      simp only [updAssoc, hbeq, Bool.false_eq_true, if_false, List.cons_append]
      congr 1
      exact ih (fun hh => hk (List.mem_cons_of_mem _ hh))

theorem filter_keys_nil (l : List (Str × β)) (k : Str)
    (hk : k ∉ l.map Prod.fst) : l.filter (fun p => p.1 == k) = [] := by
  induction l with
  | nil => rfl
  | cons p t ih =>
      have h1 : (p.1 == k) = false := by
        simp only [beq_eq_false_iff_ne, ne_eq]
        exact fun hh => hk (by
          rw [List.map_cons, hh]
          exact List.mem_cons_self _ _)
      rw [List.filter_cons]
      simp only [h1, Bool.false_eq_true, if_false]
      exact ih (fun hh => hk (List.mem_cons_of_mem _ hh))

theorem nodup_keysOf (l : List (Str × β)) : (keysOf l).Nodup := nodup_dedupFirst _

theorem mem_keysOf (l : List (Str × β)) (a : Str) :
    a ∈ keysOf l ↔ a ∈ l.map Prod.fst := mem_dedupFirst _ _

theorem foldl_gStep_charForm (g : γ → β → γ) (c : γ) :
    ∀ l : List (Str × β), l.foldl (gStep g c) [] = charForm g c l := by
  intro l
  induction l using List.reverseRecOn with
  | nil => rfl
  | append_singleton l p ih =>
      rw [List.foldl_append, List.foldl_cons, List.foldl_nil, ih]
      obtain ⟨k, v⟩ := p
      have hvals : ∀ a, valsFor (l ++ [(k, v)]) a =
          valsFor l a ++ (if a = k then [v] else []) := by
        intro a
        unfold valsFor
        rw [List.filter_append, List.map_append]
        congr 1
        by_cases ha : a = k
        · subst ha; simp
        · have hb : (k == a) = false := by
            simp only [beq_eq_false_iff_ne, ne_eq]
            exact fun hh => ha hh.symm
          simp [hb, ha]
      have hlookup : lookupD (charForm g c l) k c =
          if k ∈ keysOf l then (valsFor l k).foldl g c else c :=
        lookupD_map_pairF (keysOf l) _ k c
      unfold gStep
      dsimp only
      by_cases hk : k ∈ l.map Prod.fst
      · have hkk : k ∈ keysOf l := (mem_keysOf l k).mpr hk
        rw [hlookup, if_pos hkk,
          show charForm g c l =
            (keysOf l).map (fun a => (a, (valsFor l a).foldl g c)) from rfl,
          updAssoc_map_pairF_mem (keysOf l) (fun a => (valsFor l a).foldl g c) k
            (g ((valsFor l k).foldl g c) v) (nodup_keysOf l) hkk]
        unfold charForm
        rw [show keysOf (l ++ [(k, v)]) = keysOf l from by
          unfold keysOf
          rw [List.map_append, show List.map Prod.fst [(k, v)] = [k] from rfl,
            dedupFirst_append_single, if_pos hk]]
        refine List.map_congr_left (fun a _ => ?_)
        rw [hvals a]
        by_cases ha : a = k
        · subst ha
          simp [List.foldl_append]
        · simp [ha]
      · have hkk : k ∉ keysOf l := fun hh => hk ((mem_keysOf l k).mp hh)
        have hkeys : (charForm g c l).map Prod.fst = keysOf l := by
          unfold charForm
          rw [List.map_map]
          exact List.map_id _
        rw [hlookup, if_neg hkk,
          updAssoc_not_mem_key (charForm g c l) k (g c v) (by rw [hkeys]; exact hkk)]
        unfold charForm
        rw [show keysOf (l ++ [(k, v)]) = keysOf l ++ [k] from by
          unfold keysOf
          rw [List.map_append, show List.map Prod.fst [(k, v)] = [k] from rfl,
            dedupFirst_append_single, if_neg hk]]
        rw [List.map_append, List.map_singleton]
        congr 1
        · refine List.map_congr_left (fun a haa => ?_)
          rw [hvals a, if_neg (fun hh => hkk (by rw [← hh]; exact haa)), List.append_nil]
        · rw [hvals k, if_pos rfl,
            show valsFor l k = [] from by
              unfold valsFor
              rw [filter_keys_nil l k hk]
              rfl]
          rfl

end GroupFold

/-! ### Instantiation for `buildQuestions` -/

/-- The iteration stream of the nested loops: one `(question, (document,
answer))` entry per extraction item, in iteration order. -/
def qStream (records : List ExtRecord) : List (Str × Str × Str) :=
  records.flatMap
    (fun r => r.extractions.map (fun it => (it.question, r.document_name, it.answer)))

/-- The distinct question texts, in first-occurrence order (CPython dict key
order of the `questions` dict). -/
def questionTexts (records : List ExtRecord) : List Str := keysOf (qStream records)

/-- The distinct names of documents answering `q`, in first-occurrence order. -/
def docsAnswering (records : List ExtRecord) (q : Str) : List Str :=
  keysOf (valsFor (qStream records) q)

/-- The last answer document `d` gave to question `q` (later assignments to
`questions[q][d]` overwrite earlier ones). -/
def lastAnswerOf (records : List ExtRecord) (q d : Str) : Str :=
  (valsFor (valsFor (qStream records) q) d).getLastD []

/-- The per-document answers the emitted line for `q` walks over. -/
def answersRow (records : List ExtRecord) (q : Str) : List (Str × Str) :=
  (docsAnswering records q).map (fun d => (d, lastAnswerOf records q d))

theorem buildQuestions_eq_fold (records : List ExtRecord) :
    buildQuestions records =
      (qStream records).foldl
        (gStep (fun (m : List (Str × Str)) (p : Str × Str) => updAssoc m p.1 p.2)
          ([] : List (Str × Str))) [] := by
  unfold buildQuestions
  suffices h : ∀ m0 : List (Str × List (Str × Str)),
      records.foldl
        (fun m r =>
          r.extractions.foldl
            (fun m' it =>
              updAssoc m' it.question
                (updAssoc (lookupD m' it.question []) r.document_name it.answer))
            m) m0
      = (qStream records).foldl
          (gStep (fun (m : List (Str × Str)) (p : Str × Str) => updAssoc m p.1 p.2)
            ([] : List (Str × Str))) m0 from h []
  induction records with
  | nil => intro m0; rfl
  | cons r rest ih =>
      intro m0
      rw [show qStream (r :: rest) =
          r.extractions.map (fun it => (it.question, r.document_name, it.answer)) ++
            qStream rest from rfl,
        List.foldl_append, List.foldl_map]
      exact ih _

theorem buildQuestions_eq_spec (records : List ExtRecord) :
    buildQuestions records =
      (questionTexts records).map (fun q => (q, answersRow records q)) := by
  rw [buildQuestions_eq_fold, foldl_gStep_charForm]
  unfold charForm questionTexts
  refine List.map_congr_left (fun q _ => ?_)
  congr 1
  have h2 : (valsFor (qStream records) q).foldl
      (fun (m : List (Str × Str)) (p : Str × Str) => updAssoc m p.1 p.2) [] =
      charForm (fun (_ : Str) (v : Str) => v) ([] : Str)
        (valsFor (qStream records) q) :=
    foldl_gStep_charForm (fun (_ : Str) (v : Str) => v) ([] : Str)
      (valsFor (qStream records) q)
  rw [h2]
  unfold charForm answersRow docsAnswering lastAnswerOf
  exact List.map_congr_left (fun d _ => by rw [foldl_replace_getLastD])

theorem dedupFirstAux_length_le {α : Type} [DecidableEq α] :
    ∀ (l seen : List α), (dedupFirstAux seen l).length ≤ l.length := by
  intro l
  induction l with
  | nil => intro seen; simp [dedupFirstAux]
  | cons a t ih =>
      intro seen
      by_cases ha : a ∈ seen
      · rw [show dedupFirstAux seen (a :: t) = dedupFirstAux seen t from by
            simp [dedupFirstAux, ha]]
        exact Nat.le_succ_of_le (ih seen)
      · rw [show dedupFirstAux seen (a :: t) = a :: dedupFirstAux (a :: seen) t from by
            simp [dedupFirstAux, ha]]
        simpa using ih (a :: seen)

theorem distinctCount_le_one_of_short (l : List Str) (h : l.length ≤ 1) :
    distinctCount l ≤ 1 := by
  unfold distinctCount dedupFirst
  exact le_trans (dedupFirstAux_length_le l []) h

/-- `find_key_differences` equals its direct per-question description: one
line per distinct question text with more than one distinct answer among
the answering documents, in question first-occurrence order. -/
theorem find_key_differences_spec (records : List ExtRecord) :
    find_key_differences records =
      (questionTexts records).filterMap (fun q =>
        if distinctCount ((answersRow records q).map Prod.snd) > 1
        then some (renderDiff q (answersRow records q)) else none) := by
  unfold find_key_differences
  rw [buildQuestions_eq_spec, List.filterMap_map]
  by_cases hlen : records.length < 2
  · rw [if_pos hlen]
    symm
    rw [List.filterMap_eq_nil_iff]
    intro q hq
    rcases records with _ | ⟨r, rest⟩
    · exact absurd hq (by simp [questionTexts, qStream, keysOf, dedupFirst, dedupFirstAux])
    · rcases rest with _ | ⟨r2, rest2⟩
      · have hdocs : (docsAnswering [r] q).length ≤ 1 := by
          apply nodup_all_eq_length_le_one _ (nodup_keysOf _)
          have hq1 : qStream [r] =
              r.extractions.map (fun it => (it.question, r.document_name, it.answer)) := by
            simp [qStream]
          have hall : ∀ z ∈ (valsFor (qStream [r]) q).map Prod.fst,
              z = r.document_name := by
            intro z hz
            rw [hq1] at hz
            simp only [valsFor, List.map_map, List.mem_map, List.mem_filter] at hz
            obtain ⟨t, ⟨ht, _⟩, hzt⟩ := hz
            obtain ⟨it, hit, rfl⟩ := ht
            rw [← hzt]
            rfl
          intro x hx y hy
          rw [hall x ((mem_keysOf _ _).mp hx), hall y ((mem_keysOf _ _).mp hy)]
        have hrow : ((answersRow [r] q).map Prod.snd).length ≤ 1 := by
          rw [List.length_map]
          unfold answersRow
          rw [List.length_map]
          exact hdocs
        rw [if_neg]
        exact fun hgt => absurd (distinctCount_le_one_of_short _ hrow) (by omega)
      · exact absurd hlen (by simp)
  · rw [if_neg hlen]
    rfl

theorem mem_valsFor {β : Type} (l : List (Str × β)) (k : Str) (b : β) :
    b ∈ valsFor l k ↔ (k, b) ∈ l := by
  unfold valsFor
  simp only [List.mem_map, List.mem_filter, beq_iff_eq]
  constructor
  · rintro ⟨⟨p1, p2⟩, ⟨hp, hk⟩, hb⟩
    dsimp only at hk hb
    subst hk
    subst hb
    exact hp
  · intro h
    exact ⟨(k, b), ⟨h, rfl⟩, rfl⟩

theorem mem_qStream (records : List ExtRecord) (t : Str × Str × Str) :
    t ∈ qStream records ↔ ∃ r ∈ records, ∃ it ∈ r.extractions,
      t = (it.question, r.document_name, it.answer) := by
  unfold qStream
  simp only [List.mem_flatMap, List.mem_map]
  constructor
  · rintro ⟨r, hr, it, hit, rfl⟩
    exact ⟨r, hr, it, hit, rfl⟩
  · rintro ⟨r, hr, it, hit, rfl⟩
    exact ⟨r, hr, it, hit, rfl⟩

theorem lastAnswer_source (records : List ExtRecord) (q d : Str)
    (hd : d ∈ docsAnswering records q) :
    ∃ r ∈ records, ∃ it ∈ r.extractions,
      it.question = q ∧ it.answer = lastAnswerOf records q d := by
  have hne : valsFor (valsFor (qStream records) q) d ≠ [] := by
    have hmem := (mem_keysOf _ _).mp hd
    obtain ⟨p, hp, hfst⟩ := List.mem_map.mp hmem
    intro hnil
    have hdp : (d, p.2) = p := by
      rw [← hfst]
    have : p.2 ∈ valsFor (valsFor (qStream records) q) d :=
      (mem_valsFor _ _ _).mpr (hdp ▸ hp)
    rw [hnil] at this
    exact absurd this (List.not_mem_nil _)
  have ha : lastAnswerOf records q d ∈ valsFor (valsFor (qStream records) q) d :=
    getLastD_mem _ _ hne
  rw [mem_valsFor] at ha
  rw [mem_valsFor] at ha
  rw [mem_qStream] at ha
  obtain ⟨r, hr, it, hit, heq⟩ := ha
  simp only [Prod.mk.injEq] at heq
  exact ⟨r, hr, it, hit, heq.1.symm, heq.2.2.symm⟩

theorem find_key_differences_of_agreement (records : List ExtRecord)
    (hagree : ∀ r ∈ records, ∀ it ∈ r.extractions, ∀ r' ∈ records,
      ∀ it' ∈ r'.extractions, it.question = it'.question → it.answer = it'.answer) :
    find_key_differences records = [] := by
  rw [find_key_differences_spec, List.filterMap_eq_nil_iff]
  intro q hq
  have hle : distinctCount ((answersRow records q).map Prod.snd) ≤ 1 := by
    apply dedupFirst_length_le_one
    intro x hx y hy
    obtain ⟨px, hpx, hx2⟩ := List.mem_map.mp hx
    obtain ⟨dy, hdy, hy2⟩ := List.mem_map.mp hy
    obtain ⟨dx0, hdx0, hpx0⟩ := List.mem_map.mp hpx
    obtain ⟨dy0, hdy0, hpy0⟩ := List.mem_map.mp hdy
    obtain ⟨rx, hrx, itx, hitx, hqx, hax⟩ := lastAnswer_source records q dx0 hdx0
    obtain ⟨ry, hry, ity, hity, hqy, hay⟩ := lastAnswer_source records q dy0 hdy0
    have hxval : x = itx.answer := by
      rw [← hx2, ← hpx0]
      exact hax.symm
    have hyval : y = ity.answer := by
      rw [← hy2, ← hpy0]
      exact hay.symm
    rw [hxval, hyval]
    exact hagree rx hrx itx hitx ry hry ity hity (hqx.trans hqy.symm)
  rw [if_neg (fun hgt => absurd hle (by omega))]

/-- C5: `find_key_differences` groups all extraction answers by question
text across the input records and emits exactly one difference line per
distinct question text whose answering documents gave more than one
distinct answer string, naming each answering document's (last) answer
truncated to 100 characters; questions answered identically everywhere
produce no line (and the function is pure — it makes no agent call).  The
concrete rent example yields exactly one entry naming both documents and
both amounts. -/
theorem C5_key_difference_detection :
    (∀ records : List ExtRecord,
      find_key_differences records =
        (questionTexts records).filterMap (fun q =>
          if distinctCount ((answersRow records q).map Prod.snd) > 1
          then some (renderDiff q (answersRow records q)) else none)) ∧
    (∀ records : List ExtRecord,
      (∀ r ∈ records, ∀ it ∈ r.extractions, ∀ r' ∈ records,
        ∀ it' ∈ r'.extractions, it.question = it'.question → it.answer = it'.answer) →
      find_key_differences records = []) ∧
    (find_key_differences
        [⟨S "doc1.pdf", [⟨S "What is the rent?", S "$1000"⟩]⟩,
         ⟨S "doc2.pdf", [⟨S "What is the rent?", S "$1200"⟩]⟩] =
      [S "**What is the rent?**: doc1.pdf: $1000; doc2.pdf: $1200"]) :=
  ⟨find_key_differences_spec, find_key_differences_of_agreement, by decide⟩

/-- Witness for C5: two records answering the same question identically
produce no difference line. -/
theorem C5_key_difference_detection_witness :
    find_key_differences
      [⟨S "doc1.pdf", [⟨S "What is the rent?", S "$1000"⟩]⟩,
       ⟨S "doc2.pdf", [⟨S "What is the rent?", S "$1000"⟩]⟩] = [] :=
  C5_key_difference_detection.2.1
    [⟨S "doc1.pdf", [⟨S "What is the rent?", S "$1000"⟩]⟩,
     ⟨S "doc2.pdf", [⟨S "What is the rent?", S "$1000"⟩]⟩]
    (by decide)

end MultiAgent
